import Mathlib

/-!
# ALSA mixer and output stream

A shallow embedding of `ALSAMixer.cpp` (volume mapping, mute handling over the
static tables `mixerMasterProp` and `mixerProp`) and of `AudioStreamOutALSA.cpp`
(the blocking `write` loop with its recovery branches, `standby`, `close`,
`getRenderPosition`), followed by the properties established about them.

Conventions of the embedding:

* `size_t` and `ssize_t` byte counts are unbounded integers; the byte counts of one
  `write` are far from the machine limits.  A `long` stored in a record is the integer it
  holds; the width of `long` is a parameter of the volume mapping.
* A `float` is an IEEE 754 single: the arithmetic `minVol + volume * (maxVol - minVol)`
  rounds the converted operands, the product and the sum to single precision, each on
  its own (nearest, ties to even; no wider intermediate and no fused multiply-add), and
  the conversion of the result to `long` truncates toward zero.  Where C leaves that
  conversion undefined, the result is whatever the machine at hand produces.
* The hardware is an environment: every call that reaches it is appended to a log, and
  the value it returns is a function of the log so far and of the request.
-/

namespace ALSA

/-! ## Status codes and constants of the platform headers -/

/-- Status type of the platform, `status_t` of `utils/Errors.h`: a plain `int`. -/
abbrev status_t := Int

/-- Success code `NO_ERROR` of `utils/Errors.h`. -/
def NO_ERROR : status_t := 0

/-- Error code `BAD_VALUE` of `utils/Errors.h`, that is `-EINVAL`. -/
def BAD_VALUE : status_t := -22

/-- Error code `INVALID_OPERATION` of `utils/Errors.h`, that is `-ENOSYS`. -/
def INVALID_OPERATION : status_t := -38

/-- Linux `errno` value `EBADFD`, "file descriptor in bad state". -/
def EBADFD : Int := 77

/-- Linux `errno` value `EPIPE`, reported by the PCM layer on an underrun. -/
def EPIPE : Int := 32

/-- First channel id of `snd_mixer_selem_channel_id_t` in the ALSA headers. -/
def SND_MIXER_SCHN_FRONT_LEFT : Nat := 0

/-- Last channel id of `snd_mixer_selem_channel_id_t` in the ALSA headers. -/
def SND_MIXER_SCHN_LAST : Nat := 31

/-! ## Mixer data model -/

/-- A mixer element as the code sees it: its identity and the capability queries
`snd_mixer_selem_has_*` the mute operations consult. -/
structure snd_mixer_elem_t where
  id : Nat
  has_playback_switch : Bool
  has_capture_switch : Bool
  has_capture_volume : Bool
  has_capture_volume_joined : Bool
  /-- Channel ids for which `snd_mixer_selem_has_capture_channel` answers yes. -/
  capture_channels : List Nat
  deriving DecidableEq, Repr

/-- The record `mixer_info_t`; `elem = none` is the null element pointer.  The `name`
buffer only feeds the log messages and is left out. -/
structure mixer_info_t where
  elem : Option snd_mixer_elem_t
  min : Int
  max : Int
  volume : Int
  mute : Bool
  deriving DecidableEq, Repr

/-- One entry of `mixerMasterProp` or of a column of `mixerProp`: the device class bits
and the `mInfo` pointer (`none` is null).  The property names are only read by the
constructor and are left out. -/
structure alsa_properties_t where
  device : Nat
  mInfo : Option mixer_info_t
  deriving DecidableEq, Repr

/-- A write that reaches the mixer hardware, named after the ALSA call that makes it. -/
inductive HwWrite where
  | set_playback_volume_all (elem : Nat) (vol : Int)
  | set_capture_volume_all (elem : Nat) (vol : Int)
  | set_playback_switch_all (elem : Nat) (value : Int)
  | set_capture_switch_all (elem : Nat) (value : Int)
  | set_capture_volume (elem : Nat) (chan : Nat) (vol : Int)
  deriving DecidableEq, Repr

/-- The mixer driver: the `int` a hardware write returns, given the writes made before it
in the same operation and the write itself.  Negative means failure. -/
abbrev Driver := List HwWrite → HwWrite → Int

/-- The mixer tables.  `mixerMasterProp[i]` is one entry per direction, and column `i` of
`mixerProp[j][i]` is a list of entries in registration order; the loops of the code stop
at the first entry whose `device` is zero (the sentinel row). -/
structure ALSAMixer where
  masterPlayback : alsa_properties_t
  masterCapture : alsa_properties_t
  playback : List alsa_properties_t
  capture : List alsa_properties_t
  deriving DecidableEq, Repr

/-- What a mixer operation leaves behind: its return value, the tables, and the hardware
writes it made, oldest first. -/
structure Outcome (σ : Type) where
  status : status_t
  state : σ
  writes : List HwWrite

/-! ## Single-precision arithmetic

The volume argument of the setters is a C `float`, and
`minVol + volume * (maxVol - minVol)` is evaluated in IEEE 754 single precision: both
`long` operands are converted to `float`, the product and the sum are each rounded to the
nearest single (ties to even), and the result is converted back to `long`.  A finite
single is represented by the rational it denotes; rounding picks the nearest multiple of
the spacing of the singles around the value. -/

/-- A value of the C type `float` (IEEE 754 single precision): a finite value, given by
the rational it denotes, an infinity with its sign, or a NaN.  The sign of zero is not
kept: no operation of the volume mapping tells the two zeros apart. -/
inductive float where
  | finite (x : ℚ)
  | infinity (negative : Bool)
  | nan
  deriving DecidableEq, Repr

/-- Rounding of a rational to the nearest integer, a tie going to the even neighbour. -/
def roundNearestEven (n : ℚ) : Int :=
  if n - ⌊n⌋ < 1 / 2 then ⌊n⌋
  else if 1 / 2 < n - ⌊n⌋ then ⌊n⌋ + 1
  else if ⌊n⌋ % 2 = 0 then ⌊n⌋ else ⌊n⌋ + 1

/-- Exponent of the binade of `x`: the `e` with `2 ^ e ≤ |x| < 2 ^ (e + 1)`, held at
`-126` for the subnormal values (for zero the choice makes no difference). -/
def binade (x : ℚ) : Int := max (Int.log 2 |x|) (-126)

/-- Spacing of the singles in the binade of `x`: a significand of 24 bits. -/
def quantum (x : ℚ) : ℚ := (2 : ℚ) ^ (binade x - 23)

/-- The multiple of the spacing nearest to `x`, ties to the even significand: the single
nearest to `x` whenever that single is finite. -/
def roundFinite (x : ℚ) : ℚ := roundNearestEven (x / quantum x) * quantum x

/-- Rounding of an exact result to single precision.  A rounded magnitude of `2 ^ 128` or
more is beyond the largest single and becomes the infinity of the sign of `x`. -/
def roundToSingle (x : ℚ) : float :=
  if |roundFinite x| < 2 ^ 128 then float.finite (roundFinite x)
  else float.infinity (decide (x < 0))

/-- Single-precision product. -/
def fmul : float → float → float
  | float.finite x, float.finite y => roundToSingle (x * y)
  | float.finite x, float.infinity s =>
    if x = 0 then float.nan else float.infinity (xor (decide (x < 0)) s)
  | float.infinity s, float.finite y =>
    if y = 0 then float.nan else float.infinity (xor s (decide (y < 0)))
  | float.infinity s, float.infinity t => float.infinity (xor s t)
  | _, _ => float.nan

/-- Single-precision sum. -/
def fadd : float → float → float
  | float.finite x, float.finite y => roundToSingle (x + y)
  | float.finite _, float.infinity s => float.infinity s
  | float.infinity s, float.finite _ => float.infinity s
  | float.infinity s, float.infinity t => if s = t then float.infinity s else float.nan
  | _, _ => float.nan

/-- What C leaves to the machine the code is built for: the width of `long`, at least 32
bits, and the value that a conversion from `float` to `long` produces when the truncated
value does not fit in `long` (or the operand is an infinity or a NaN).  The language calls
that conversion undefined; a processor returns some value, which `undefinedConversion`
stands for. -/
structure Machine where
  longBits : Nat
  long_bits_ge : 32 ≤ longBits
  undefinedConversion : float → Int

/-- The least value of `long`. -/
def LONG_MIN (pf : Machine) : Int := -(2 ^ (pf.longBits - 1))

/-- The greatest value of `long`. -/
def LONG_MAX (pf : Machine) : Int := 2 ^ (pf.longBits - 1) - 1

/-- Reduction of an integer result to the width of `long` (two's complement). -/
def toLong (pf : Machine) (z : Int) : Int :=
  (z - LONG_MIN pf) % 2 ^ pf.longBits + LONG_MIN pf

/-- Conversion of a `long` operand to `float`: the nearest single. -/
def longToFloat (z : Int) : float := roundToSingle (z : ℚ)

/-- The integer part of a rational: the fractional part is discarded (toward zero). -/
def truncate (x : ℚ) : Int := if 0 ≤ x then ⌊x⌋ else ⌈x⌉

/-- Conversion of a `float` to `long`: the value truncated toward zero when that fits in
`long`, and whatever the machine produces otherwise. -/
def floatToLong (pf : Machine) : float → Int
  | float.finite x =>
    if LONG_MIN pf ≤ truncate x ∧ truncate x ≤ LONG_MAX pf then truncate x
    else pf.undefinedConversion (float.finite x)
  | f => pf.undefinedConversion f

/-! ## Volume mapping -/

/-- The lines shared verbatim by `setMasterVolume`, `setMasterGain`, `setVolume` and
`setGain`:
`long vol = minVol + volume * (maxVol - minVol);`
`if (vol > maxVol) vol = maxVol; if (vol < minVol) vol = minVol;`.
The difference is taken in `long`, converted to `float` and multiplied by `volume`; the
product is added to `minVol` converted to `float`; the sum is converted to `long`. -/
def boundedVolume (pf : Machine) (minVol maxVol : Int) (volume : float) : Int :=
  let vol := floatToLong pf
    (fadd (longToFloat minVol) (fmul volume (longToFloat (toLong pf (maxVol - minVol)))))
  let vol := if vol > maxVol then maxVol else vol
  let vol := if vol < minVol then minVol else vol
  vol

/-- Body of `setMasterVolume` and `setMasterGain` on the master entry of one direction;
`mk` is the ALSA call of that direction.  The value the call returns is not looked at. -/
def setMasterEntry (pf : Machine) (drv : Driver) (mk : Nat → Int → HwWrite)
    (p : alsa_properties_t) (volume : float) : Outcome alsa_properties_t :=
  match p.mInfo with
  | none => ⟨INVALID_OPERATION, p, []⟩
  | some info =>
    match info.elem with
    | none => ⟨INVALID_OPERATION, p, []⟩
    | some e =>
      let vol := boundedVolume pf info.min info.max volume
      let _err := drv [] (mk e.id vol)
      ⟨NO_ERROR, { p with mInfo := some { info with volume := vol } }, [mk e.id vol]⟩

/-- Embedding of `ALSAMixer::setMasterVolume`. -/
def ALSAMixer.setMasterVolume (pf : Machine) (drv : Driver) (m : ALSAMixer)
    (volume : float) : Outcome ALSAMixer :=
  let r := setMasterEntry pf drv HwWrite.set_playback_volume_all m.masterPlayback volume
  ⟨r.status, { m with masterPlayback := r.state }, r.writes⟩

/-- Embedding of `ALSAMixer::setMasterGain`. -/
def ALSAMixer.setMasterGain (pf : Machine) (drv : Driver) (m : ALSAMixer)
    (gain : float) : Outcome ALSAMixer :=
  let r := setMasterEntry pf drv HwWrite.set_capture_volume_all m.masterCapture gain
  ⟨r.status, { m with masterCapture := r.state }, r.writes⟩

/-- The loop of `setVolume` and `setGain` over one column of `mixerProp`, from entry `j`
on; `tr` holds the hardware writes made so far.  The loop ends at the sentinel (or at the
end of the list) with `NO_ERROR`, and returns `INVALID_OPERATION` at the first matched
entry without a control, keeping what earlier entries already recorded. -/
def volumeLoop (pf : Machine) (drv : Driver) (mk : Nat → Int → HwWrite) (device : Nat)
    (volume : float) :
    List alsa_properties_t → List HwWrite → Outcome (List alsa_properties_t)
  | [], tr => ⟨NO_ERROR, [], tr⟩
  | p :: ps, tr =>
    if p.device = 0 then ⟨NO_ERROR, p :: ps, tr⟩
    else if p.device &&& device ≠ 0 then
      match p.mInfo with
      | none => ⟨INVALID_OPERATION, p :: ps, tr⟩
      | some info =>
        match info.elem with
        | none => ⟨INVALID_OPERATION, p :: ps, tr⟩
        | some e =>
          let vol := boundedVolume pf info.min info.max volume
          let _err := drv tr (mk e.id vol)
          let r := volumeLoop pf drv mk device volume ps (tr ++ [mk e.id vol])
          ⟨r.status, { p with mInfo := some { info with volume := vol } } :: r.state,
            r.writes⟩
    else
      let r := volumeLoop pf drv mk device volume ps tr
      ⟨r.status, p :: r.state, r.writes⟩

/-- Embedding of `ALSAMixer::setVolume`; `right` is not used by the code. -/
def ALSAMixer.setVolume (pf : Machine) (drv : Driver) (m : ALSAMixer) (device : Nat)
    (left _right : float) : Outcome ALSAMixer :=
  let r := volumeLoop pf drv HwWrite.set_playback_volume_all device left m.playback []
  ⟨r.status, { m with playback := r.state }, r.writes⟩

/-- Embedding of `ALSAMixer::setGain`. -/
def ALSAMixer.setGain (pf : Machine) (drv : Driver) (m : ALSAMixer) (device : Nat)
    (gain : float) : Outcome ALSAMixer :=
  let r := volumeLoop pf drv HwWrite.set_capture_volume_all device gain m.capture []
  ⟨r.status, { m with capture := r.state }, r.writes⟩

/-! ## Mute state -/

/-- The value `static_cast<int>(!state)` handed to the switch. -/
def switchValue (state : Bool) : Int := if state then 0 else 1

/-- The per-channel loop of `setCaptureMuteState` for a control whose channels are not
joined: one `snd_mixer_selem_set_capture_volume` per exposed channel id from
`SND_MIXER_SCHN_FRONT_LEFT` to `SND_MIXER_SCHN_LAST`, in increasing order. -/
def captureChannelWrites (e : snd_mixer_elem_t) (vol : Int) : List HwWrite :=
  ((List.range (SND_MIXER_SCHN_LAST + 1)).filter
    (fun c => decide (SND_MIXER_SCHN_FRONT_LEFT ≤ c) && decide (c ∈ e.capture_channels))).map
    (fun c => HwWrite.set_capture_volume e.id c vol)

/-- The loop of `setCaptureMuteState` over the capture column. -/
def captureMuteLoop (drv : Driver) (device : Nat) (state : Bool) :
    List alsa_properties_t → List HwWrite → Outcome (List alsa_properties_t)
  | [], tr => ⟨NO_ERROR, [], tr⟩
  | p :: ps, tr =>
    if p.device = 0 then ⟨NO_ERROR, p :: ps, tr⟩
    else if p.device &&& device ≠ 0 then
      match p.mInfo with
      | none => ⟨INVALID_OPERATION, p :: ps, tr⟩
      | some info =>
        match info.elem with
        | none => ⟨INVALID_OPERATION, p :: ps, tr⟩
        | some e =>
          if e.has_capture_switch then
            let w := HwWrite.set_capture_switch_all e.id (switchValue state)
            let err := drv tr w
            if err < 0 then ⟨INVALID_OPERATION, p :: ps, tr ++ [w]⟩
            else
              let r := captureMuteLoop drv device state ps (tr ++ [w])
              ⟨r.status, { p with mInfo := some { info with mute := state } } :: r.state,
                r.writes⟩
          else if !e.has_capture_volume then ⟨INVALID_OPERATION, p :: ps, tr⟩
          else
            let vol : Int := if state then 0 else info.volume
            let ws :=
              if e.has_capture_volume_joined then [HwWrite.set_capture_volume_all e.id vol]
              else captureChannelWrites e vol
            let r := captureMuteLoop drv device state ps (tr ++ ws)
            ⟨r.status, { p with mInfo := some { info with mute := state } } :: r.state,
              r.writes⟩
    else
      let r := captureMuteLoop drv device state ps tr
      ⟨r.status, p :: r.state, r.writes⟩

/-- Embedding of `ALSAMixer::setCaptureMuteState`. -/
def ALSAMixer.setCaptureMuteState (drv : Driver) (m : ALSAMixer) (device : Nat)
    (state : Bool) : Outcome ALSAMixer :=
  let r := captureMuteLoop drv device state m.capture []
  ⟨r.status, { m with capture := r.state }, r.writes⟩

/-- The loop of `setPlaybackMuteState` over the playback column. -/
def playbackMuteLoop (drv : Driver) (device : Nat) (state : Bool) :
    List alsa_properties_t → List HwWrite → Outcome (List alsa_properties_t)
  | [], tr => ⟨NO_ERROR, [], tr⟩
  | p :: ps, tr =>
    if p.device = 0 then ⟨NO_ERROR, p :: ps, tr⟩
    else if p.device &&& device ≠ 0 then
      match p.mInfo with
      | none => ⟨INVALID_OPERATION, p :: ps, tr⟩
      | some info =>
        match info.elem with
        | none => ⟨INVALID_OPERATION, p :: ps, tr⟩
        | some e =>
          if e.has_playback_switch then
            let w := HwWrite.set_playback_switch_all e.id (switchValue state)
            let err := drv tr w
            if err < 0 then ⟨INVALID_OPERATION, p :: ps, tr ++ [w]⟩
            else
              let r := playbackMuteLoop drv device state ps (tr ++ [w])
              ⟨r.status, { p with mInfo := some { info with mute := state } } :: r.state,
                r.writes⟩
          else
            let r := playbackMuteLoop drv device state ps tr
            ⟨r.status, { p with mInfo := some { info with mute := state } } :: r.state,
              r.writes⟩
    else
      let r := playbackMuteLoop drv device state ps tr
      ⟨r.status, p :: r.state, r.writes⟩

/-- Embedding of `ALSAMixer::setPlaybackMuteState`. -/
def ALSAMixer.setPlaybackMuteState (drv : Driver) (m : ALSAMixer) (device : Nat)
    (state : Bool) : Outcome ALSAMixer :=
  let r := playbackMuteLoop drv device state m.playback []
  ⟨r.status, { m with playback := r.state }, r.writes⟩

/-- The loop of `getCaptureMuteState` and `getPlaybackMuteState` over one column.  `old`
is what the cell behind the `state` pointer holds on entry; the result is the return value
and the content of the cell on exit.  The first matched entry decides. -/
def getMuteLoop (device : Nat) (old : Bool) : List alsa_properties_t → status_t × Bool
  | [] => (BAD_VALUE, old)
  | p :: ps =>
    if p.device = 0 then (BAD_VALUE, old)
    else if p.device &&& device ≠ 0 then
      match p.mInfo with
      | none => (INVALID_OPERATION, old)
      | some info =>
        match info.elem with
        | none => (INVALID_OPERATION, old)
        | some _ => (NO_ERROR, info.mute)
    else getMuteLoop device old ps

/-- Embedding of `ALSAMixer::getCaptureMuteState`; `state = none` is the null pointer. -/
def ALSAMixer.getCaptureMuteState (m : ALSAMixer) (device : Nat) (state : Option Bool) :
    status_t × Option Bool :=
  match state with
  | none => (BAD_VALUE, none)
  | some old =>
    let r := getMuteLoop device old m.capture
    (r.1, some r.2)

/-- Embedding of `ALSAMixer::getPlaybackMuteState`; `state = none` is the null pointer. -/
def ALSAMixer.getPlaybackMuteState (m : ALSAMixer) (device : Nat) (state : Option Bool) :
    status_t × Option Bool :=
  match state with
  | none => (BAD_VALUE, none)
  | some old =>
    let r := getMuteLoop device old m.playback
    (r.1, some r.2)

/-! ## Output stream -/

/-- A call the stream makes to one of its collaborators: the power manager, the hardware
module, the PCM transport, the optional acoustics hook, the base class. -/
inductive Event where
  | acquire_wake_lock
  | release_wake_lock
  | module_open (curDev : Nat) (curMode : Int)
  | module_close
  | snd_pcm_drain
  | snd_pcm_writei (offset : Nat) (frames : Nat)
  | snd_pcm_recover (err : Int)
  | aDev_write (bytes : Nat)
  | aDev_recover (err : Int)
  | ALSAStreamOps_close
  deriving DecidableEq, Repr

/-- The record `alsa_handle_t` as far as the stream reads it: whether `handle` is
non-null, and the remembered device and mode. -/
structure alsa_handle_t where
  handle : Bool
  curDev : Nat
  curMode : Int
  deriving DecidableEq, Repr

/-- The stream object: `mHandle`, `mPowerLock`, `framesRendered`, and the log of the calls
it has made to its collaborators, oldest first. -/
structure AudioStreamOutALSA where
  mHandle : alsa_handle_t
  mPowerLock : Bool
  framesRendered : Nat
  log : List Event
  deriving DecidableEq, Repr

/-- The collaborators of a stream.  Each answer is a function of the log of the calls made
so far and of the request, so any deterministic behaviour of the transport is covered.
`frameBytes` is the size of one frame, which `snd_pcm_bytes_to_frames` divides by and
`snd_pcm_frames_to_bytes` multiplies by.  `module_open` tells whether the handle is
non-null after `mHandle->module->open`.  `aDevWrite` and `aDevRecover` tell whether the
acoustics module exists with that hook. -/
structure Transport where
  frameBytes : Nat
  snd_pcm_writei : List Event → Nat → Int
  snd_pcm_recover : List Event → Int → Int
  module_open : List Event → Bool
  aDevWrite : Bool
  aDevRecover : Bool

/-- Append one call to the log of the stream. -/
def AudioStreamOutALSA.emit (s : AudioStreamOutALSA) (e : Event) : AudioStreamOutALSA :=
  { s with log := s.log ++ [e] }

/-- The call `mHandle->module->open(mHandle, mHandle->curDev, mHandle->curMode)`. -/
def AudioStreamOutALSA.reopen (env : Transport) (s : AudioStreamOutALSA) :
    AudioStreamOutALSA :=
  { s with
    mHandle := { s.mHandle with handle := env.module_open s.log }
    log := s.log ++ [Event.module_open s.mHandle.curDev s.mHandle.curMode] }

/-- The call `aDev->recover(aDev, n)` when the hook exists. -/
def AudioStreamOutALSA.notifyRecover (env : Transport) (s : AudioStreamOutALSA) (n : Int) :
    AudioStreamOutALSA :=
  if env.aDevRecover then s.emit (Event.aDev_recover n) else s

/-- The part of `write` before the loop: take the wake lock when it is not held, reopen
the transport when the handle is null, hand the buffer to the acoustics hook. -/
def AudioStreamOutALSA.writeBegin (env : Transport) (s : AudioStreamOutALSA) (bytes : Nat) :
    AudioStreamOutALSA :=
  let s1 := if !s.mPowerLock then { s.emit Event.acquire_wake_lock with mPowerLock := true }
            else s
  let s2 := if !s1.mHandle.handle then s1.reopen env else s1
  if env.aDevWrite then s2.emit (Event.aDev_write bytes) else s2

/-- One pass through the body of the `do` loop of `write`, with `sent` bytes accepted so
far.  The first component is `some n` when the body executes `return n`. -/
def AudioStreamOutALSA.writeBody (env : Transport) (bytes : Nat) (s : AudioStreamOutALSA)
    (sent : Nat) : Option Int × AudioStreamOutALSA × Nat :=
  let frames := (bytes - sent) / env.frameBytes
  let n := env.snd_pcm_writei s.log frames
  let s1 := s.emit (Event.snd_pcm_writei sent frames)
  if n < 0 then
    if n = -EBADFD then
      let s2 := (s1.reopen env).notifyRecover env n
      if n ≠ 0 then (some n, s2, sent) else (none, s2, sent)
    else if s1.mHandle.handle then
      let n2 := env.snd_pcm_recover s1.log n
      let s2 := (s1.emit (Event.snd_pcm_recover n)).notifyRecover env n2
      if n2 ≠ 0 then (some n2, s2, sent) else (none, s2, sent)
    else (none, s1, sent)
  else
    let sent2 := sent + n.toNat * env.frameBytes
    (none, { s1 with framesRendered := s1.framesRendered + sent2 }, sent2)

/-- The `do { ... } while (mHandle->handle && sent < bytes)` loop of `write`, run for at
most `fuel` passes.  The first component is `some r` when `write` returns `r`, and `none`
when the loop is still running after `fuel` passes; the state and the byte count reached
are returned in both cases. -/
def AudioStreamOutALSA.writeLoop (env : Transport) (bytes : Nat) :
    Nat → AudioStreamOutALSA → Nat → Option Int × AudioStreamOutALSA × Nat
  | 0, s, sent => (none, s, sent)
  | fuel + 1, s, sent =>
    match AudioStreamOutALSA.writeBody env bytes s sent with
    | (some r, s1, sent1) => (some r, s1, sent1)
    | (none, s1, sent1) =>
      if s1.mHandle.handle && decide (sent1 < bytes) then
        AudioStreamOutALSA.writeLoop env bytes fuel s1 sent1
      else (some (sent1 : Int), s1, sent1)

/-- Embedding of `AudioStreamOutALSA::write` with a bound on the passes of its loop:
`some r` is the value returned, `none` means the loop is still running. -/
def AudioStreamOutALSA.write (env : Transport) (fuel : Nat) (s : AudioStreamOutALSA)
    (bytes : Nat) : Option Int × AudioStreamOutALSA :=
  let r := AudioStreamOutALSA.writeLoop env bytes fuel (s.writeBegin env bytes) 0
  (r.1, r.2.1)

/-- Release of the wake lock at the end of `close` and `standby`. -/
def AudioStreamOutALSA.releaseLock (s : AudioStreamOutALSA) : AudioStreamOutALSA :=
  if s.mPowerLock then { s.emit Event.release_wake_lock with mPowerLock := false } else s

/-- Modelled from the spec: the base-class `ALSAStreamOps::close()`, whose source is not
part of the two files; per the spec it closes the transport fully, so the handle is null
afterwards. -/
def AudioStreamOutALSA.ALSAStreamOps_close (s : AudioStreamOutALSA) : AudioStreamOutALSA :=
  { s.emit Event.ALSAStreamOps_close with mHandle := { s.mHandle with handle := false } }

/-- Modelled from the spec: the hardware module's `close(mHandle)`, whose source is not
part of the two files; per the spec the transport handle is released and absent in
standby. -/
def AudioStreamOutALSA.module_close (s : AudioStreamOutALSA) : AudioStreamOutALSA :=
  { s.emit Event.module_close with mHandle := { s.mHandle with handle := false } }

/-- Embedding of `AudioStreamOutALSA::close`. -/
def AudioStreamOutALSA.close (s : AudioStreamOutALSA) : status_t × AudioStreamOutALSA :=
  let s1 := s.emit Event.snd_pcm_drain
  let s2 := { s1 with framesRendered := 0 }
  let s3 := s2.ALSAStreamOps_close
  (NO_ERROR, s3.releaseLock)

/-- Embedding of `AudioStreamOutALSA::standby`. -/
def AudioStreamOutALSA.standby (s : AudioStreamOutALSA) : status_t × AudioStreamOutALSA :=
  let s1 := s.emit Event.snd_pcm_drain
  let s2 := s1.module_close
  let s3 := { s2 with framesRendered := 0 }
  (NO_ERROR, s3.releaseLock)

/-- Embedding of `AudioStreamOutALSA::getRenderPosition`: the counter stored through the
`uint32_t` pointer. -/
def AudioStreamOutALSA.getRenderPosition (s : AudioStreamOutALSA) : status_t × Nat :=
  (NO_ERROR, s.framesRendered % 2 ^ 32)

/-- Number of `acquire_wake_lock` calls in a log. -/
def acquires (log : List Event) : Nat := log.count Event.acquire_wake_lock

/-- Number of `release_wake_lock` calls in a log. -/
def releases (log : List Event) : Nat := log.count Event.release_wake_lock

/-- A call of the framework on the stream; a `write` carries the byte count and the bound
on the passes of its loop. -/
inductive Call where
  | write (bytes : Nat) (fuel : Nat)
  | standby
  | close
  deriving DecidableEq, Repr

/-- Execute one call; `none` when a `write` has not returned within its bound. -/
def AudioStreamOutALSA.call (env : Transport) (s : AudioStreamOutALSA) :
    Call → Option AudioStreamOutALSA
  | Call.write bytes fuel =>
    match AudioStreamOutALSA.write env fuel s bytes with
    | (some _, s1) => some s1
    | (none, _) => none
  | Call.standby => some s.standby.2
  | Call.close => some s.close.2

/-- Execute a sequence of calls, each starting where the previous one returned. -/
def AudioStreamOutALSA.run (env : Transport) :
    AudioStreamOutALSA → List Call → Option AudioStreamOutALSA
  | s, [] => some s
  | s, c :: cs =>
    match s.call env c with
    | some s1 => AudioStreamOutALSA.run env s1 cs
    | none => none


/-! ## Vocabulary of the statements -/

/-- Entry `j` of a column is one the loops of the code reach when nothing returns early:
it exists and no entry up to and including it is the sentinel. -/
def Registered (tbl : List alsa_properties_t) (j : Nat) : Prop :=
  j < tbl.length ∧ ∀ k, k ≤ j → ∀ q, tbl[k]? = some q → q.device ≠ 0

/-- The entry has a resolved control: `info` and `info->elem` are both non-null. -/
def Bound (p : alsa_properties_t) : Prop :=
  ∃ info e, p.mInfo = some info ∧ info.elem = some e

/-- The device class of the entry intersects the requested device mask. -/
def Matched (device : Nat) (p : alsa_properties_t) : Prop := p.device &&& device ≠ 0

/-- The entry with its recorded volume replaced. -/
def withVolume (p : alsa_properties_t) (info : mixer_info_t) (vol : Int) :
    alsa_properties_t :=
  { p with mInfo := some { info with volume := vol } }

/-- The entry with its recorded mute flag replaced. -/
def withMute (p : alsa_properties_t) (info : mixer_info_t) (state : Bool) :
    alsa_properties_t :=
  { p with mInfo := some { info with mute := state } }

/-- The value `minVol + v * (maxVol - minVol)` in exact arithmetic. -/
def scaled (minVol maxVol : Int) (v : ℚ) : ℚ :=
  (minVol : ℚ) + v * ((maxVol - minVol : Int) : ℚ)

/-- Clamp of an integer to `[lo, hi]`, as the spec writes it. -/
def clamp (x lo hi : Int) : Int := max lo (min x hi)

/-- The single-precision value of `minVol + volume * (maxVol - minVol)` that the code
converts to `long`. -/
def floatExpr (pf : Machine) (minVol maxVol : Int) (volume : float) : float :=
  fadd (longToFloat minVol) (fmul volume (longToFloat (toLong pf (maxVol - minVol))))

/-- The conversion of the value to `long` is defined by the language: the value is finite
and its integer part fits in `long`. -/
def ConversionDefined (pf : Machine) : float → Prop
  | float.finite x => LONG_MIN pf ≤ truncate x ∧ truncate x ≤ LONG_MAX pf
  | _ => False

/-- The value `minVol + v * (maxVol - minVol)` with the product and the sum each rounded
to single precision, for a range whose bounds and width are singles themselves. -/
def singleScaled (minVol maxVol : Int) (v : ℚ) : ℚ :=
  roundFinite ((minVol : ℚ) + roundFinite (v * ((maxVol - minVol : Int) : ℚ)))

/-- The bounds and the width of the range are integers every single holds exactly:
`-2^24 ≤ minVol ≤ maxVol ≤ 2^24` and `maxVol - minVol ≤ 2^24`. -/
def SingleRange (minVol maxVol : Int) : Prop :=
  -(2 ^ 24) ≤ minVol ∧ minVol ≤ maxVol ∧ maxVol ≤ 2 ^ 24 ∧ maxVol - minVol ≤ 2 ^ 24

/-- Entry `j`, holding `p`, is the first binding in registration order whose device class
intersects the mask: the entries before it are neither the sentinel nor matched. -/
def FirstMatched (device : Nat) (tbl : List alsa_properties_t) (j : Nat)
    (p : alsa_properties_t) : Prop :=
  tbl[j]? = some p ∧ Matched device p ∧
    ∀ k, k < j → ∀ q, tbl[k]? = some q → q.device ≠ 0 ∧ ¬ Matched device q

/-- The mask intersects the device class of no registered binding of the column. -/
def NoMatch (device : Nat) (tbl : List alsa_properties_t) : Prop :=
  ∀ j q, Registered tbl j → tbl[j]? = some q → ¬ Matched device q

/-- The recorded volume of an entry, when it has a record. -/
def recordedVolume (p : alsa_properties_t) : Option Int := p.mInfo.map (fun i => i.volume)

/-- The recorded mute flag of an entry, when it has a record. -/
def recordedMute (p : alsa_properties_t) : Option Bool := p.mInfo.map (fun i => i.mute)

/-! ## The common shape of the loops

The four setter loops share one skeleton: stop at the sentinel, step over an entry the mask
does not intersect, and run a body on a matched entry.  The body either makes the function
return `INVALID_OPERATION` or updates the entry and goes on.  The skeleton is stated once
here; each loop above is shown equal to it with its own body, so that properties of the
iteration are proved once. -/

/-- The skeleton of the loops.  `body p tr` is `(none, tr1)` when the body returns
`INVALID_OPERATION` having made the writes `tr1`, and `(some p1, tr1)` when it leaves the
entry as `p1` and goes on. -/
def columnLoop (device : Nat)
    (body : alsa_properties_t → List HwWrite → Option alsa_properties_t × List HwWrite) :
    List alsa_properties_t → List HwWrite → Outcome (List alsa_properties_t)
  | [], tr => ⟨NO_ERROR, [], tr⟩
  | p :: ps, tr =>
    if p.device = 0 then ⟨NO_ERROR, p :: ps, tr⟩
    else if p.device &&& device ≠ 0 then
      match body p tr with
      | (none, tr1) => ⟨INVALID_OPERATION, p :: ps, tr1⟩
      | (some p1, tr1) =>
        let r := columnLoop device body ps tr1
        ⟨r.status, p1 :: r.state, r.writes⟩
    else
      let r := columnLoop device body ps tr
      ⟨r.status, p :: r.state, r.writes⟩

/-- Body of the loop of `setVolume` and `setGain` on a matched entry. -/
def volumeBody (pf : Machine) (mk : Nat → Int → HwWrite) (volume : float)
    (p : alsa_properties_t) (tr : List HwWrite) :
    Option alsa_properties_t × List HwWrite :=
  match p.mInfo with
  | none => (none, tr)
  | some info =>
    match info.elem with
    | none => (none, tr)
    | some e =>
      (some (withVolume p info (boundedVolume pf info.min info.max volume)),
        tr ++ [mk e.id (boundedVolume pf info.min info.max volume)])

/-- Body of the loop of `setPlaybackMuteState` on a matched entry. -/
def playbackMuteBody (drv : Driver) (state : Bool) (p : alsa_properties_t)
    (tr : List HwWrite) : Option alsa_properties_t × List HwWrite :=
  match p.mInfo with
  | none => (none, tr)
  | some info =>
    match info.elem with
    | none => (none, tr)
    | some e =>
      if e.has_playback_switch then
        if drv tr (HwWrite.set_playback_switch_all e.id (switchValue state)) < 0 then
          (none, tr ++ [HwWrite.set_playback_switch_all e.id (switchValue state)])
        else
          (some (withMute p info state),
            tr ++ [HwWrite.set_playback_switch_all e.id (switchValue state)])
      else (some (withMute p info state), tr)

/-- Body of the loop of `setCaptureMuteState` on a matched entry. -/
def captureMuteBody (drv : Driver) (state : Bool) (p : alsa_properties_t)
    (tr : List HwWrite) : Option alsa_properties_t × List HwWrite :=
  match p.mInfo with
  | none => (none, tr)
  | some info =>
    match info.elem with
    | none => (none, tr)
    | some e =>
      if e.has_capture_switch then
        if drv tr (HwWrite.set_capture_switch_all e.id (switchValue state)) < 0 then
          (none, tr ++ [HwWrite.set_capture_switch_all e.id (switchValue state)])
        else
          (some (withMute p info state),
            tr ++ [HwWrite.set_capture_switch_all e.id (switchValue state)])
      else if !e.has_capture_volume then (none, tr)
      else
        (some (withMute p info state),
          tr ++ (if e.has_capture_volume_joined then
              [HwWrite.set_capture_volume_all e.id (if state then 0 else info.volume)]
            else captureChannelWrites e (if state then 0 else info.volume)))

/-- The entries of a column the loops can reach: those before the sentinel row, in
registration order. -/
def registeredEntries (tbl : List alsa_properties_t) : List alsa_properties_t :=
  tbl.takeWhile (fun p => decide (p.device ≠ 0))

/-- The hardware write a volume setter makes for a bound entry: the ALSA call `mk` on its
control with the volume mapped over the entry's own range. -/
def volumeWriteOf (pf : Machine) (mk : Nat → Int → HwWrite) (volume : float)
    (p : alsa_properties_t) : Option HwWrite :=
  match p.mInfo with
  | none => none
  | some info =>
    match info.elem with
    | none => none
    | some e => some (mk e.id (boundedVolume pf info.min info.max volume))

/-! ## Concrete tables and environments for the examples -/

/-- A playback control with a switch. -/
def pcmElem : snd_mixer_elem_t :=
  { id := 1, has_playback_switch := true, has_capture_switch := false,
    has_capture_volume := false, has_capture_volume_joined := false, capture_channels := [] }

/-- A capture control with a volume, joined channels, and no switch. -/
def micElem : snd_mixer_elem_t :=
  { id := 2, has_playback_switch := false, has_capture_switch := false,
    has_capture_volume := true, has_capture_volume_joined := true, capture_channels := [0] }

/-- A capture control with a switch. -/
def lineElem : snd_mixer_elem_t :=
  { id := 3, has_playback_switch := false, has_capture_switch := true,
    has_capture_volume := true, has_capture_volume_joined := true, capture_channels := [0] }

/-- A bound record with native range `[0, 87]`, at the maximum as after construction. -/
def pcmInfo : mixer_info_t :=
  { elem := some pcmElem, min := 0, max := 87, volume := 87, mute := false }

/-- A bound capture record with native range `[0, 5]`. -/
def micInfo : mixer_info_t :=
  { elem := some micElem, min := 0, max := 5, volume := 5, mute := false }

/-- A bound capture record on the control with a switch. -/
def lineInfo : mixer_info_t :=
  { elem := some lineElem, min := 0, max := 5, volume := 5, mute := false }

/-- A record whose control was not found at construction (default range `[0, 100]`). -/
def unboundInfo : mixer_info_t :=
  { elem := none, min := 0, max := 100, volume := 0, mute := false }

/-- A mixer with both masters bound and, per direction, two bound device entries (classes
`1` and `2`) followed by the sentinel row. -/
def demoMixer : ALSAMixer :=
  { masterPlayback := ⟨0xFFFF, some pcmInfo⟩
    masterCapture := ⟨0xFFFF, some micInfo⟩
    playback := [⟨1, some pcmInfo⟩, ⟨2, some pcmInfo⟩, ⟨0, none⟩]
    capture := [⟨1, some lineInfo⟩, ⟨2, some micInfo⟩, ⟨0, none⟩] }

/-- A mixer whose masters and whose device entry of class `2` found no control. -/
def unboundMixer : ALSAMixer :=
  { masterPlayback := ⟨0xFFFF, some unboundInfo⟩
    masterCapture := ⟨0xFFFF, some unboundInfo⟩
    playback := [⟨1, some pcmInfo⟩, ⟨2, some unboundInfo⟩, ⟨0, none⟩]
    capture := [⟨1, some lineInfo⟩, ⟨2, some unboundInfo⟩, ⟨0, none⟩] }

/-- A machine with a 64-bit `long` on which an out-of-range conversion from `float`
yields `LONG_MIN`, as the conversion instruction of x86-64 does. -/
def lp64 : Machine :=
  { longBits := 64, long_bits_ge := by decide, undefinedConversion := fun _ => -(2 ^ 63) }

/-- A bound record with native range `[0, 100]`. -/
def percentInfo : mixer_info_t :=
  { elem := some pcmElem, min := 0, max := 100, volume := 100, mute := false }

/-- The demo mixer with its master playback bound to the range `[0, 100]`. -/
def percentMixer : ALSAMixer :=
  { demoMixer with masterPlayback := ⟨0xFFFF, some percentInfo⟩ }

/-- A driver on which every write succeeds. -/
def okDriver : Driver := fun _ _ => 0

/-- Whether a logged call is a transport write. -/
def Event.isWritei : Event → Bool
  | Event.snd_pcm_writei _ _ => true
  | _ => false

/-- An open stream on device `2`, nothing rendered yet, wake lock not held, empty log. -/
def openStream : AudioStreamOutALSA :=
  { mHandle := ⟨true, 2, 0⟩, mPowerLock := false, framesRendered := 0, log := [] }

/-- A transport with frames of 4 bytes that accepts one frame per write. -/
def oneFrameTransport : Transport :=
  { frameBytes := 4
    snd_pcm_writei := fun _ _ => 1
    snd_pcm_recover := fun _ _ => 0
    module_open := fun _ => true
    aDevWrite := false
    aDevRecover := false }

/-- A transport with frames of 4 bytes that accepts one frame on its first write and
reports `-EBADFD` on every later one. -/
def goneTransport : Transport :=
  { frameBytes := 4
    snd_pcm_writei := fun log _ => if log.any Event.isWritei then -EBADFD else 1
    snd_pcm_recover := fun _ _ => 0
    module_open := fun _ => true
    aDevWrite := false
    aDevRecover := false }

/-- A transport with frames of 4 bytes whose first write fails with `-EPIPE`, whose
recovery succeeds, and which accepts every frame of every later write. -/
def underrunTransport : Transport :=
  { frameBytes := 4
    snd_pcm_writei := fun log frames => if log.any Event.isWritei then (frames : Int) else -EPIPE
    snd_pcm_recover := fun _ _ => 0
    module_open := fun _ => true
    aDevWrite := false
    aDevRecover := false }

/-- The bookkeeping of the wake lock is balanced: the `acquire_wake_lock` calls exceed the
`release_wake_lock` calls by one when `mPowerLock` is set, and equal them otherwise. -/
def WakeBalanced (s : AudioStreamOutALSA) : Prop :=
  (acquires s.log : Int) - (releases s.log : Int) = if s.mPowerLock then 1 else 0

/-- A stream in standby on device `2` with nothing logged and the wake lock not held. -/
def freshStream : AudioStreamOutALSA :=
  { mHandle := ⟨false, 2, 0⟩, mPowerLock := false, framesRendered := 0, log := [] }

/-- A playback control with a volume and no switch.  A bound playback control always has
a volume (the constructor binds only such elements); the code asks nothing else of it. -/
def speakerElem : snd_mixer_elem_t :=
  { id := 4, has_playback_switch := false, has_capture_switch := false,
    has_capture_volume := false, has_capture_volume_joined := false, capture_channels := [] }

/-- A bound playback record on the control without a switch, range `[0, 87]`, at volume 60. -/
def speakerInfo : mixer_info_t :=
  { elem := some speakerElem, min := 0, max := 87, volume := 60, mute := false }

/-- A bound capture record on the control with a joined volume and no switch, range
`[0, 5]`, at volume 3. -/
def quietMicInfo : mixer_info_t :=
  { elem := some micElem, min := 0, max := 5, volume := 3, mute := false }

/-- A mixer whose device entries of class `2` are bound, in both directions, to controls
that have a volume and no switch. -/
def switchlessMixer : ALSAMixer :=
  { masterPlayback := ⟨0xFFFF, some pcmInfo⟩
    masterCapture := ⟨0xFFFF, some micInfo⟩
    playback := [⟨2, some speakerInfo⟩, ⟨0, none⟩]
    capture := [⟨2, some quietMicInfo⟩, ⟨0, none⟩] }

/-! ## Single precision and the volume mapping: lemmas -/

theorem floor_le_roundNearestEven (n : ℚ) : ⌊n⌋ ≤ roundNearestEven n := by
  unfold roundNearestEven
  split_ifs <;> omega

theorem roundNearestEven_le_floor_succ (n : ℚ) : roundNearestEven n ≤ ⌊n⌋ + 1 := by
  unfold roundNearestEven
  split_ifs <;> omega

theorem roundNearestEven_intCast (z : Int) : roundNearestEven (z : ℚ) = z := by
  unfold roundNearestEven
  simp

theorem int_le_roundNearestEven (n : ℚ) (z : Int) (h : (z : ℚ) ≤ n) :
    z ≤ roundNearestEven n :=
  le_trans (Int.le_floor.mpr h) (floor_le_roundNearestEven n)

theorem roundNearestEven_le_int (n : ℚ) (z : Int) (h : n ≤ (z : ℚ)) :
    roundNearestEven n ≤ z := by
  rcases eq_or_lt_of_le h with heq | hlt
  · rw [heq, roundNearestEven_intCast]
  · have hf : ⌊n⌋ < z := Int.floor_lt.mpr hlt
    have := roundNearestEven_le_floor_succ n
    omega

theorem abs_roundNearestEven_sub_le (n : ℚ) : |(roundNearestEven n : ℚ) - n| ≤ 1 / 2 := by
  have h1 := Int.floor_le n
  have h2 := Int.lt_floor_add_one n
  unfold roundNearestEven
  rw [abs_le]
  split_ifs with ha hb hc <;> push_cast <;> constructor <;> linarith

theorem roundNearestEven_eq_of_lt (n : ℚ) (z : Int) (h1 : (z : ℚ) - 1 / 2 < n)
    (h2 : n < (z : ℚ) + 1 / 2) : roundNearestEven n = z := by
  have hb := abs_roundNearestEven_sub_le n
  rw [abs_le] at hb
  have h3 : ((roundNearestEven n : ℚ)) < z + 1 := by linarith [hb.2]
  have h4 : (z : ℚ) - 1 < roundNearestEven n := by linarith [hb.1]
  have h5 : roundNearestEven n < z + 1 := by exact_mod_cast h3
  have h6 : z - 1 < roundNearestEven n := by exact_mod_cast h4
  omega

theorem quantum_pos (x : ℚ) : 0 < quantum x := by
  unfold quantum
  positivity

theorem quantum_small (x : ℚ) (h : binade x ≤ 23) :
    ∃ N : ℕ, (N : ℚ) * quantum x = 1 := by
  refine ⟨2 ^ (23 - binade x).toNat, ?_⟩
  have hn : ((23 - binade x).toNat : ℤ) = 23 - binade x := Int.toNat_of_nonneg (by omega)
  have h1 : ((2 ^ (23 - binade x).toNat : ℕ) : ℚ) = (2 : ℚ) ^ (23 - binade x) := by
    rw [← hn, zpow_natCast]
    push_cast
    rfl
  rw [h1]
  unfold quantum
  rw [← zpow_add₀ (by norm_num : (2 : ℚ) ≠ 0)]
  simp

theorem quantum_large (x : ℚ) (h : 24 ≤ binade x) :
    (2 : ℚ) ^ 24 ≤ 2 ^ 23 * quantum x ∧ 2 ^ 23 * quantum x ≤ |x| := by
  have he : binade x = Int.log 2 |x| := by
    unfold binade at h ⊢
    omega
  have hx : 0 < |x| := by
    by_contra hx
    have hx0 : |x| ≤ 0 := not_lt.mp hx
    have := Int.log_of_right_le_zero 2 hx0
    rw [he, this] at h
    omega
  have hB : (2 : ℚ) ^ 23 * quantum x = (2 : ℚ) ^ (binade x) := by
    unfold quantum
    rw [← zpow_natCast (2 : ℚ) 23, ← zpow_add₀ (by norm_num : (2 : ℚ) ≠ 0)]
    congr 1
    push_cast
    ring
  rw [hB]
  constructor
  · rw [← zpow_natCast (2 : ℚ) 24]
    exact zpow_le_zpow_right₀ (by norm_num) (by exact_mod_cast h)
  · rw [he]
    have := Int.zpow_log_le_self (b := 2) (by norm_num) hx
    exact_mod_cast this

theorem roundFinite_sandwich (x : ℚ) (k : Int) (hk : |k| ≤ 2 ^ 24) :
    ((k : ℚ) ≤ x → (k : ℚ) ≤ roundFinite x) ∧ (x ≤ (k : ℚ) → roundFinite x ≤ (k : ℚ)) := by
  have hq := quantum_pos x
  have hk1 : (-(2 : ℚ) ^ 24) ≤ (k : ℚ) := by
    have := (abs_le.mp hk).1
    exact_mod_cast this
  have hk2 : (k : ℚ) ≤ (2 : ℚ) ^ 24 := by
    have := (abs_le.mp hk).2
    exact_mod_cast this
  by_cases hb : binade x ≤ 23
  · obtain ⟨N, hN⟩ := quantum_small x hb
    have hdiv : x / quantum x = x * N := by
      field_simp
      rw [mul_assoc, hN, mul_one]
    have hkq : ((k * N : ℤ) : ℚ) * quantum x = k := by
      push_cast
      rw [mul_assoc, hN, mul_one]
    have hNnn : (0 : ℚ) ≤ N := Nat.cast_nonneg N
    unfold roundFinite
    rw [hdiv]
    constructor
    · intro h
      have h1 : ((k * N : ℤ) : ℚ) ≤ x * N := by
        push_cast
        exact mul_le_mul_of_nonneg_right h hNnn
      have h2 := int_le_roundNearestEven _ _ h1
      have h3 : ((k * N : ℤ) : ℚ) ≤ (roundNearestEven (x * N) : ℚ) := by exact_mod_cast h2
      calc (k : ℚ) = ((k * N : ℤ) : ℚ) * quantum x := hkq.symm
        _ ≤ roundNearestEven (x * N) * quantum x := mul_le_mul_of_nonneg_right h3 hq.le
    · intro h
      have h1 : x * N ≤ ((k * N : ℤ) : ℚ) := by
        push_cast
        exact mul_le_mul_of_nonneg_right h hNnn
      have h2 := roundNearestEven_le_int _ _ h1
      have h3 : (roundNearestEven (x * N) : ℚ) ≤ ((k * N : ℤ) : ℚ) := by exact_mod_cast h2
      calc (roundNearestEven (x * N) : ℚ) * quantum x
          ≤ ((k * N : ℤ) : ℚ) * quantum x := mul_le_mul_of_nonneg_right h3 hq.le
        _ = k := hkq
  · obtain ⟨hB1, hB2⟩ := quantum_large x (by omega)
    have hBq : (2 : ℚ) ^ 23 * quantum x / quantum x = ((2 ^ 23 : ℤ) : ℚ) := by
      field_simp
    have hBq2 : -((2 : ℚ) ^ 23 * quantum x) / quantum x = ((-(2 ^ 23) : ℤ) : ℚ) := by
      field_simp
    unfold roundFinite
    constructor
    · intro h
      by_cases hx : 0 ≤ x
      · rw [abs_of_nonneg hx] at hB2
        have h1 : ((2 ^ 23 : ℤ) : ℚ) ≤ x / quantum x := by
          rw [← hBq]
          exact div_le_div_of_nonneg_right hB2 hq.le
        have h2 := int_le_roundNearestEven _ _ h1
        have h3 : ((2 ^ 23 : ℤ) : ℚ) ≤ (roundNearestEven (x / quantum x) : ℚ) := by
          exact_mod_cast h2
        have h4 := mul_le_mul_of_nonneg_right h3 hq.le
        push_cast at h4
        linarith
      · rw [abs_of_neg (not_le.mp hx)] at hB2
        have hxe : x = -((2 : ℚ) ^ 23 * quantum x) := by linarith
        have hke : (k : ℚ) = x := by linarith
        have hdiv : x / quantum x = ((-(2 ^ 23) : ℤ) : ℚ) := by
          rw [← hBq2, ← hxe]
        rw [hdiv, roundNearestEven_intCast]
        push_cast
        linarith
    · intro h
      by_cases hx : 0 ≤ x
      · rw [abs_of_nonneg hx] at hB2
        have hxe : x = (2 : ℚ) ^ 23 * quantum x := by linarith
        have hke : (k : ℚ) = x := by linarith
        have hdiv : x / quantum x = ((2 ^ 23 : ℤ) : ℚ) := by
          rw [← hBq, ← hxe]
        rw [hdiv, roundNearestEven_intCast]
        push_cast
        linarith
      · rw [abs_of_neg (not_le.mp hx)] at hB2
        have h1 : x / quantum x ≤ ((-(2 ^ 23) : ℤ) : ℚ) := by
          rw [← hBq2]
          exact div_le_div_of_nonneg_right (by linarith) hq.le
        have h2 := roundNearestEven_le_int _ _ h1
        have h3 : (roundNearestEven (x / quantum x) : ℚ) ≤ ((-(2 ^ 23) : ℤ) : ℚ) := by
          exact_mod_cast h2
        have h4 := mul_le_mul_of_nonneg_right h3 hq.le
        push_cast at h4
        linarith

theorem roundFinite_int (k : Int) (hk : |k| ≤ 2 ^ 24) : roundFinite (k : ℚ) = k :=
  le_antisymm ((roundFinite_sandwich k k hk).2 le_rfl) ((roundFinite_sandwich k k hk).1 le_rfl)

theorem roundToSingle_between (x : ℚ) (lo hi : Int) (hlo : |lo| ≤ 2 ^ 24) (hhi : |hi| ≤ 2 ^ 24)
    (h1 : (lo : ℚ) ≤ x) (h2 : x ≤ (hi : ℚ)) :
    roundToSingle x = float.finite (roundFinite x) ∧ (lo : ℚ) ≤ roundFinite x ∧
      roundFinite x ≤ (hi : ℚ) := by
  have a := (roundFinite_sandwich x lo hlo).1 h1
  have b := (roundFinite_sandwich x hi hhi).2 h2
  have hlo1 : (-(2 : ℚ) ^ 24) ≤ (lo : ℚ) := by
    have := (abs_le.mp hlo).1
    exact_mod_cast this
  have hhi2 : (hi : ℚ) ≤ (2 : ℚ) ^ 24 := by
    have := (abs_le.mp hhi).2
    exact_mod_cast this
  refine ⟨?_, a, b⟩
  unfold roundToSingle
  rw [if_pos]
  rw [abs_lt]
  constructor
  · calc (-(2 : ℚ) ^ 128) < -(2 : ℚ) ^ 24 := by norm_num
      _ ≤ roundFinite x := by linarith
  · calc roundFinite x ≤ (2 : ℚ) ^ 24 := by linarith
      _ < 2 ^ 128 := by norm_num

theorem longToFloat_small (k : Int) (hk : |k| ≤ 2 ^ 24) : longToFloat k = float.finite k := by
  have h := roundToSingle_between (k : ℚ) k k hk hk le_rfl le_rfl
  unfold longToFloat
  rw [h.1, roundFinite_int k hk]

theorem roundFinite_zero : roundFinite 0 = 0 := by
  have := roundFinite_int 0 (by norm_num)
  simpa using this

/-- Rounding error of one operation: at most `2^-24` of the magnitude, or half the least
subnormal step. -/
theorem abs_roundFinite_sub_le (x : ℚ) :
    |roundFinite x - x| ≤ |x| / 2 ^ 24 + 1 / 2 ^ 150 := by
  by_cases hx0 : x = 0
  · subst hx0
    rw [roundFinite_zero]
    norm_num
  have hq := quantum_pos x
  have hx : 0 < |x| := abs_pos.mpr hx0
  have herr : |roundFinite x - x| ≤ quantum x / 2 := by
    have h := abs_roundNearestEven_sub_le (x / quantum x)
    have e : roundFinite x - x = ((roundNearestEven (x / quantum x) : ℚ) - x / quantum x) *
        quantum x := by
      unfold roundFinite
      field_simp
    rw [e, abs_mul, abs_of_pos hq]
    calc |(roundNearestEven (x / quantum x) : ℚ) - x / quantum x| * quantum x
        ≤ 1 / 2 * quantum x := mul_le_mul_of_nonneg_right h hq.le
      _ = quantum x / 2 := by ring
  have hqb : quantum x / 2 ≤ |x| / 2 ^ 24 + 1 / 2 ^ 150 := by
    by_cases hn : -126 ≤ Int.log 2 |x|
    · have hb : binade x = Int.log 2 |x| := by
        unfold binade
        omega
      have hle := Int.zpow_log_le_self (b := 2) (by norm_num) hx
      have hq2 : quantum x = (2 : ℚ) ^ (Int.log 2 |x|) / 2 ^ 23 := by
        unfold quantum
        rw [hb, zpow_sub₀ (by norm_num : (2 : ℚ) ≠ 0)]
        norm_num
      have hle2 : (2 : ℚ) ^ (Int.log 2 |x|) ≤ |x| := by exact_mod_cast hle
      rw [hq2]
      have : (2 : ℚ) ^ (Int.log 2 |x|) / 2 ^ 23 / 2 ≤ |x| / 2 ^ 24 := by
        rw [div_div]
        have e24 : (2 : ℚ) ^ 23 * 2 = 2 ^ 24 := by norm_num
        rw [e24]
        exact div_le_div_of_nonneg_right hle2 (by norm_num)
      have h0 : (0 : ℚ) ≤ 1 / 2 ^ 150 := by positivity
      linarith
    · have hb : binade x = -126 := by
        unfold binade
        omega
      have hq2 : quantum x = 1 / 2 ^ 149 := by
        unfold quantum
        rw [hb]
        norm_num
      rw [hq2]
      have h0 : (0 : ℚ) ≤ |x| / 2 ^ 24 := by positivity
      have : (1 : ℚ) / 2 ^ 149 / 2 = 1 / 2 ^ 150 := by norm_num
      linarith
  exact le_trans herr hqb

theorem long_range (pf : Machine) : LONG_MIN pf ≤ -(2 ^ 31) ∧ 2 ^ 31 - 1 ≤ LONG_MAX pf := by
  have h : (2 : Int) ^ 31 ≤ 2 ^ (pf.longBits - 1) :=
    pow_le_pow_right₀ (by norm_num) (by have := pf.long_bits_ge; omega)
  unfold LONG_MIN LONG_MAX
  constructor <;> omega

theorem toLong_eq (pf : Machine) (z : Int) (h1 : LONG_MIN pf ≤ z) (h2 : z ≤ LONG_MAX pf) :
    toLong pf z = z := by
  have hw : (2 : Int) ^ pf.longBits = 2 * 2 ^ (pf.longBits - 1) := by
    have : pf.longBits = (pf.longBits - 1) + 1 := by have := pf.long_bits_ge; omega
    conv_lhs => rw [this, pow_succ]
    ring
  unfold toLong
  unfold LONG_MIN LONG_MAX at *
  rw [Int.emod_eq_of_lt (by omega) (by omega)]
  omega

theorem truncate_le (x : ℚ) (b : Int) (h : x ≤ b) : truncate x ≤ b := by
  unfold truncate
  split
  · exact Int.floor_le_iff.mpr (by linarith)
  · exact Int.ceil_le.mpr h

theorem le_truncate (x : ℚ) (a : Int) (h : (a : ℚ) ≤ x) : a ≤ truncate x := by
  unfold truncate
  split
  · exact Int.le_floor.mpr h
  · exact Int.le_ceil_iff.mpr (by linarith)

theorem boundedVolume_eq_clamp (pf : Machine) (minVol maxVol : Int) (v : float) :
    boundedVolume pf minVol maxVol v =
      clamp (floatToLong pf (floatExpr pf minVol maxVol v)) minVol maxVol := by
  unfold boundedVolume clamp floatExpr
  simp only
  split_ifs <;> omega

/-- The float expression on a range of small integers: the product and the sum are the
roundings of the exact product and sum, when they are finite. -/
theorem floatExpr_small (pf : Machine) (minVol maxVol : Int) (v : ℚ)
    (hmin : -(2 ^ 24) ≤ minVol) (hmax : maxVol ≤ 2 ^ 24) (hr : minVol ≤ maxVol)
    (hd : maxVol - minVol ≤ 2 ^ 24) :
    floatExpr pf minVol maxVol (float.finite v) =
      fadd (float.finite minVol)
        (roundToSingle (v * ((maxVol - minVol : Int) : ℚ))) := by
  have hlr := long_range pf
  have h1 : toLong pf (maxVol - minVol) = maxVol - minVol :=
    toLong_eq pf _ (by omega) (by omega)
  have h2 : longToFloat (maxVol - minVol) = float.finite ((maxVol - minVol : Int) : ℚ) :=
    longToFloat_small _ (by rw [abs_le]; constructor <;> omega)
  have h3 : longToFloat minVol = float.finite (minVol : ℚ) :=
    longToFloat_small _ (by rw [abs_le]; constructor <;> omega)
  unfold floatExpr
  rw [h1, h2, h3]
  rfl

theorem conversion_defined_value (pf : Machine) (minVol maxVol : Int) (v : ℚ)
    (hmin : -(2 ^ 24) ≤ minVol) (hmax : maxVol ≤ 2 ^ 24) (hr : minVol ≤ maxVol)
    (hd : maxVol - minVol ≤ 2 ^ 24)
    (hdef : ConversionDefined pf (floatExpr pf minVol maxVol (float.finite v))) :
    floatExpr pf minVol maxVol (float.finite v) = float.finite (singleScaled minVol maxVol v) ∧
      roundToSingle (v * ((maxVol - minVol : Int) : ℚ)) =
        float.finite (roundFinite (v * ((maxVol - minVol : Int) : ℚ))) ∧
      floatToLong pf (floatExpr pf minVol maxVol (float.finite v)) = truncate (singleScaled minVol maxVol v) := by
  have he := floatExpr_small pf minVol maxVol v hmin hmax hr hd
  rw [he] at hdef ⊢
  have hp : roundToSingle (v * ((maxVol - minVol : Int) : ℚ)) =
      float.finite (roundFinite (v * ((maxVol - minVol : Int) : ℚ))) := by
    unfold roundToSingle at hdef ⊢
    split_ifs at hdef ⊢ with h
    · rfl
    · simp [fadd, ConversionDefined] at hdef
  rw [hp] at hdef ⊢
  have hs : fadd (float.finite (minVol : ℚ))
      (float.finite (roundFinite (v * ((maxVol - minVol : Int) : ℚ)))) =
      float.finite (singleScaled minVol maxVol v) := by
    simp only [fadd] at hdef ⊢
    unfold roundToSingle at hdef ⊢
    split_ifs at hdef ⊢ with h
    · rfl
    · simp [ConversionDefined] at hdef
  rw [hs] at hdef ⊢
  refine ⟨rfl, rfl, ?_⟩
  simp only [ConversionDefined] at hdef
  simp only [floatToLong, hdef, and_self, if_true]

theorem singleScaled_neg (minVol maxVol : Int) (v : ℚ)
    (hmin : -(2 ^ 24) ≤ minVol) (hmax : maxVol ≤ 2 ^ 24) (hr : minVol ≤ maxVol) (hv : v < 0) :
    singleScaled minVol maxVol v ≤ minVol := by
  have hd : (0 : ℚ) ≤ ((maxVol - minVol : Int) : ℚ) := by exact_mod_cast Int.sub_nonneg.mpr hr
  have hp : roundFinite (v * ((maxVol - minVol : Int) : ℚ)) ≤ ((0 : Int) : ℚ) :=
    (roundFinite_sandwich _ 0 (by norm_num)).2
      (by push_cast; exact mul_nonpos_of_nonpos_of_nonneg hv.le (by exact_mod_cast hd))
  have hp0 : roundFinite (v * ((maxVol - minVol : Int) : ℚ)) ≤ 0 := by exact_mod_cast hp
  unfold singleScaled
  exact (roundFinite_sandwich _ minVol (by rw [abs_le]; constructor <;> omega)).2 (by linarith)

theorem singleScaled_gt_one (minVol maxVol : Int) (v : ℚ)
    (hmin : -(2 ^ 24) ≤ minVol) (hmax : maxVol ≤ 2 ^ 24) (hr : minVol ≤ maxVol)
    (hd : maxVol - minVol ≤ 2 ^ 24) (hv : 1 < v) :
    (maxVol : ℚ) ≤ singleScaled minVol maxVol v := by
  have hd0 : (0 : ℚ) ≤ ((maxVol - minVol : Int) : ℚ) := by exact_mod_cast Int.sub_nonneg.mpr hr
  have hp : ((maxVol - minVol : Int) : ℚ) ≤ roundFinite (v * ((maxVol - minVol : Int) : ℚ)) :=
    (roundFinite_sandwich _ (maxVol - minVol) (by rw [abs_le]; constructor <;> omega)).1
      (by nlinarith)
  have hc : ((maxVol - minVol : Int) : ℚ) = (maxVol : ℚ) - minVol := by push_cast; ring
  unfold singleScaled
  exact (roundFinite_sandwich _ maxVol (by rw [abs_le]; constructor <;> omega)).1 (by linarith)

theorem singleScaled_unit (pf : Machine) (minVol maxVol : Int) (v : ℚ)
    (hmin : -(2 ^ 24) ≤ minVol) (hmax : maxVol ≤ 2 ^ 24) (hr : minVol ≤ maxVol)
    (hd : maxVol - minVol ≤ 2 ^ 24) (h0 : 0 ≤ v) (h1 : v ≤ 1) :
    (minVol : ℚ) ≤ singleScaled minVol maxVol v ∧ singleScaled minVol maxVol v ≤ maxVol ∧
      ConversionDefined pf (floatExpr pf minVol maxVol (float.finite v)) ∧
      |singleScaled minVol maxVol v - scaled minVol maxVol v| ≤
        3 * (max |minVol| |maxVol| : Int) / 2 ^ 24 + 1 / 2 ^ 149 := by
  have hd0 : (0 : ℚ) ≤ ((maxVol - minVol : Int) : ℚ) := by exact_mod_cast Int.sub_nonneg.mpr hr
  have hc : ((maxVol - minVol : Int) : ℚ) = (maxVol : ℚ) - minVol := by push_cast; ring
  have hx0 : ((0 : Int) : ℚ) ≤ v * ((maxVol - minVol : Int) : ℚ) := by
    push_cast
    exact mul_nonneg h0 (by exact_mod_cast hd0)
  have hx1 : v * ((maxVol - minVol : Int) : ℚ) ≤ ((maxVol - minVol : Int) : ℚ) :=
    mul_le_of_le_one_left hd0 h1
  obtain ⟨hpf, hp0, hp1⟩ := roundToSingle_between _ 0 (maxVol - minVol) (by norm_num)
    (by rw [abs_le]; constructor <;> omega) hx0 hx1
  have hp0' : (0 : ℚ) ≤ roundFinite (v * ((maxVol - minVol : Int) : ℚ)) := by exact_mod_cast hp0
  obtain ⟨hsf, hs0, hs1⟩ := roundToSingle_between
    ((minVol : ℚ) + roundFinite (v * ((maxVol - minVol : Int) : ℚ))) minVol maxVol
    (by rw [abs_le]; constructor <;> omega) (by rw [abs_le]; constructor <;> omega)
    (by linarith) (by linarith)
  have hlr := long_range pf
  have hfe : floatExpr pf minVol maxVol (float.finite v) = float.finite (singleScaled minVol maxVol v) := by
    rw [floatExpr_small pf minVol maxVol v hmin hmax hr hd, hpf]
    exact hsf
  refine ⟨hs0, hs1, ?_, ?_⟩
  · rw [hfe]
    have t1 := le_truncate _ _ hs0
    have t2 := truncate_le _ _ hs1
    unfold singleScaled ConversionDefined
    constructor <;> omega
  · -- two roundings, each within 2^-24 of the magnitude rounded
    have e1 := abs_roundFinite_sub_le (v * ((maxVol - minVol : Int) : ℚ))
    have e2 := abs_roundFinite_sub_le
      ((minVol : ℚ) + roundFinite (v * ((maxVol - minVol : Int) : ℚ)))
    have hM1 : |(minVol : ℚ)| ≤ ((max |minVol| |maxVol| : Int) : ℚ) := by
      have : |minVol| ≤ max |minVol| |maxVol| := le_max_left _ _
      exact_mod_cast this
    have hM2 : |(maxVol : ℚ)| ≤ ((max |minVol| |maxVol| : Int) : ℚ) := by
      have : |maxVol| ≤ max |minVol| |maxVol| := le_max_right _ _
      exact_mod_cast this
    have ha : |v * ((maxVol - minVol : Int) : ℚ)| ≤ 2 * ((max |minVol| |maxVol| : Int) : ℚ) := by
      rw [abs_of_nonneg (by exact_mod_cast hx0)]
      have := abs_le.mp hM1
      have := abs_le.mp hM2
      linarith
    have hb : |(minVol : ℚ) + roundFinite (v * ((maxVol - minVol : Int) : ℚ))| ≤
        ((max |minVol| |maxVol| : Int) : ℚ) := by
      have := abs_le.mp hM1
      have := abs_le.mp hM2
      rw [abs_le]
      constructor <;> linarith
    have hsplit : singleScaled minVol maxVol v - scaled minVol maxVol v =
        (roundFinite ((minVol : ℚ) + roundFinite (v * ((maxVol - minVol : Int) : ℚ))) -
          ((minVol : ℚ) + roundFinite (v * ((maxVol - minVol : Int) : ℚ)))) +
        (roundFinite (v * ((maxVol - minVol : Int) : ℚ)) -
          v * ((maxVol - minVol : Int) : ℚ)) := by
      unfold singleScaled scaled
      ring
    rw [hsplit]
    have h24 : (0 : ℚ) < 2 ^ 24 := by norm_num
    have ha' : |v * ((maxVol - minVol : Int) : ℚ)| / 2 ^ 24 ≤
        2 * ((max |minVol| |maxVol| : Int) : ℚ) / 2 ^ 24 :=
      div_le_div_of_nonneg_right ha h24.le
    have hb' : |(minVol : ℚ) + roundFinite (v * ((maxVol - minVol : Int) : ℚ))| / 2 ^ 24 ≤
        ((max |minVol| |maxVol| : Int) : ℚ) / 2 ^ 24 :=
      div_le_div_of_nonneg_right hb h24.le
    have h150 : (1 : ℚ) / 2 ^ 150 + 1 / 2 ^ 150 = 1 / 2 ^ 149 := by norm_num
    calc _ ≤ _ := abs_add _ _
      _ ≤ (((max |minVol| |maxVol| : Int) : ℚ) / 2 ^ 24 + 1 / 2 ^ 150) +
          (2 * ((max |minVol| |maxVol| : Int) : ℚ) / 2 ^ 24 + 1 / 2 ^ 150) := by linarith
      _ = 3 * ((max |minVol| |maxVol| : Int) : ℚ) / 2 ^ 24 + 1 / 2 ^ 149 := by
        rw [← h150]
        ring

theorem boundedVolume_unit (pf : Machine) (minVol maxVol : Int) (v : ℚ)
    (hmin : -(2 ^ 24) ≤ minVol) (hmax : maxVol ≤ 2 ^ 24) (hr : minVol ≤ maxVol)
    (hd : maxVol - minVol ≤ 2 ^ 24) (h0 : 0 ≤ v) (h1 : v ≤ 1) :
    boundedVolume pf minVol maxVol (float.finite v) = truncate (singleScaled minVol maxVol v) ∧
      minVol ≤ truncate (singleScaled minVol maxVol v) ∧
      truncate (singleScaled minVol maxVol v) ≤ maxVol := by
  obtain ⟨hs0, hs1, hdef, _⟩ := singleScaled_unit pf minVol maxVol v hmin hmax hr hd h0 h1
  have hc := (conversion_defined_value pf minVol maxVol v hmin hmax hr hd hdef).2.2
  have t1 := le_truncate _ _ hs0
  have t2 := truncate_le _ _ hs1
  refine ⟨?_, t1, t2⟩
  rw [boundedVolume_eq_clamp, hc]
  unfold clamp
  omega

theorem boundedVolume_neg (pf : Machine) (minVol maxVol : Int) (v : ℚ)
    (hmin : -(2 ^ 24) ≤ minVol) (hmax : maxVol ≤ 2 ^ 24) (hr : minVol ≤ maxVol)
    (hd : maxVol - minVol ≤ 2 ^ 24) (hv : v < 0)
    (hdef : ConversionDefined pf (floatExpr pf minVol maxVol (float.finite v))) :
    boundedVolume pf minVol maxVol (float.finite v) = minVol := by
  have hc := (conversion_defined_value pf minVol maxVol v hmin hmax hr hd hdef).2.2
  have t := truncate_le _ _ (singleScaled_neg minVol maxVol v hmin hmax hr hv)
  rw [boundedVolume_eq_clamp, hc]
  unfold clamp
  omega

theorem boundedVolume_gt_one (pf : Machine) (minVol maxVol : Int) (v : ℚ)
    (hmin : -(2 ^ 24) ≤ minVol) (hmax : maxVol ≤ 2 ^ 24) (hr : minVol ≤ maxVol)
    (hd : maxVol - minVol ≤ 2 ^ 24) (hv : 1 < v)
    (hdef : ConversionDefined pf (floatExpr pf minVol maxVol (float.finite v))) :
    boundedVolume pf minVol maxVol (float.finite v) = maxVol := by
  have hc := (conversion_defined_value pf minVol maxVol v hmin hmax hr hd hdef).2.2
  have t := le_truncate _ _ (singleScaled_gt_one minVol maxVol v hmin hmax hr hd hv)
  rw [boundedVolume_eq_clamp, hc]
  unfold clamp
  omega

/-- The binade of a value between two consecutive powers of two. -/
theorem binade_eq (x : ℚ) (e : Int) (he : -126 ≤ e) (h1 : (2 : ℚ) ^ e ≤ |x|)
    (h2 : |x| < (2 : ℚ) ^ (e + 1)) : binade x = e := by
  have hpos : (0 : ℚ) < |x| := lt_of_lt_of_le (zpow_pos (by norm_num) e) h1
  have ha : e ≤ Int.log 2 |x| := (Int.zpow_le_iff_le_log (by norm_num) hpos).mp (by exact_mod_cast h1)
  have hb : Int.log 2 |x| < e + 1 := (Int.lt_zpow_iff_log_lt (by norm_num) hpos).mp (by exact_mod_cast h2)
  unfold binade
  omega

/-- Rounding of a value in the binade `e` whose quotient by the quantum is nearer to the
integer `z` than to any other. -/
theorem roundFinite_of (x : ℚ) (e z : Int) (he : -126 ≤ e) (h1 : (2 : ℚ) ^ e ≤ |x|)
    (h2 : |x| < (2 : ℚ) ^ (e + 1)) (h3 : (z : ℚ) - 1 / 2 < x / (2 : ℚ) ^ (e - 23))
    (h4 : x / (2 : ℚ) ^ (e - 23) < (z : ℚ) + 1 / 2) :
    roundFinite x = (z : ℚ) * (2 : ℚ) ^ (e - 23) := by
  unfold roundFinite quantum
  rw [binade_eq x e he h1 h2, roundNearestEven_eq_of_lt _ z h3 h4]

theorem singleScaled_half : singleScaled 0 87 (1 / 2) = 87 / 2 := by
  have h : roundFinite (87 / 2) = 87 / 2 := by
    rw [roundFinite_of (87 / 2) 5 11403264 (by norm_num) (by norm_num [abs_of_pos])
      (by norm_num [abs_of_pos]) (by norm_num) (by norm_num)]
    norm_num
  unfold singleScaled
  norm_num [h]

theorem singleScaled_three_quarters : singleScaled 0 5 (3 / 4) = 15 / 4 := by
  have h : roundFinite (15 / 4) = 15 / 4 := by
    rw [roundFinite_of (15 / 4) 1 15728640 (by norm_num) (by norm_num [abs_of_pos])
      (by norm_num [abs_of_pos]) (by norm_num) (by norm_num)]
    norm_num
  unfold singleScaled
  norm_num [h]

/-- The single nearest to `0.2` is `13421773 / 2 ^ 26`; scaled over `[0, 87]` in single
precision it gives `9122611 / 2 ^ 19`, a little below `17.4`. -/
theorem singleScaled_fifth : singleScaled 0 87 (13421773 / 67108864) = 9122611 / 524288 := by
  have h1 : roundFinite (1167694251 / 67108864) = 9122611 / 524288 := by
    rw [roundFinite_of (1167694251 / 67108864) 4 9122611 (by norm_num)
      (by norm_num [abs_of_pos]) (by norm_num [abs_of_pos]) (by norm_num) (by norm_num)]
    norm_num
  have h2 : roundFinite (9122611 / 524288) = 9122611 / 524288 := by
    rw [roundFinite_of (9122611 / 524288) 4 9122611 (by norm_num)
      (by norm_num [abs_of_pos]) (by norm_num [abs_of_pos]) (by norm_num) (by norm_num)]
    norm_num
  unfold singleScaled
  norm_num [h1, h2]

/-- The single nearest to `0.01` is `5368709 / 2 ^ 29`; its product with 100 rounds up
to 1 in single precision, while the exact product is below 1. -/
theorem singleScaled_hundredth : singleScaled 0 100 (5368709 / 536870912) = 1 := by
  have h1 : roundFinite (134217725 / 134217728) = 1 := by
    rw [roundFinite_of (134217725 / 134217728) (-1) 16777216 (by norm_num)
      (by norm_num [abs_of_pos]) (by norm_num [abs_of_pos]) (by norm_num) (by norm_num)]
    norm_num
  have h2 : roundFinite 1 = 1 := by
    simpa using roundFinite_int 1 (by norm_num)
  unfold singleScaled
  norm_num [h1, h2]

theorem truncate_eq (x : ℚ) (z : Int) (h0 : 0 ≤ x) (h1 : (z : ℚ) ≤ x) (h2 : x < z + 1) :
    truncate x = z := by
  unfold truncate
  rw [if_pos h0]
  exact Int.floor_eq_iff.mpr ⟨h1, h2⟩

theorem boundedVolume_half (pf : Machine) : boundedVolume pf 0 87 (float.finite (1 / 2)) = 43 := by
  rw [(boundedVolume_unit pf 0 87 (1 / 2) (by norm_num) (by norm_num) (by norm_num)
    (by norm_num) (by norm_num) (by norm_num)).1, singleScaled_half]
  exact truncate_eq _ 43 (by norm_num) (by norm_num) (by norm_num)

theorem boundedVolume_three_quarters (pf : Machine) :
    boundedVolume pf 0 5 (float.finite (3 / 4)) = 3 := by
  rw [(boundedVolume_unit pf 0 5 (3 / 4) (by norm_num) (by norm_num) (by norm_num)
    (by norm_num) (by norm_num) (by norm_num)).1, singleScaled_three_quarters]
  exact truncate_eq _ 3 (by norm_num) (by norm_num) (by norm_num)

theorem boundedVolume_fifth (pf : Machine) :
    boundedVolume pf 0 87 (float.finite (13421773 / 67108864)) = 17 := by
  rw [(boundedVolume_unit pf 0 87 (13421773 / 67108864) (by norm_num) (by norm_num)
    (by norm_num) (by norm_num) (by norm_num) (by norm_num)).1, singleScaled_fifth]
  exact truncate_eq _ 17 (by norm_num) (by norm_num) (by norm_num)

theorem boundedVolume_hundredth (pf : Machine) :
    boundedVolume pf 0 100 (float.finite (5368709 / 536870912)) = 1 := by
  rw [(boundedVolume_unit pf 0 100 (5368709 / 536870912) (by norm_num) (by norm_num)
    (by norm_num) (by norm_num) (by norm_num) (by norm_num)).1, singleScaled_hundredth]
  exact truncate_eq _ 1 (by norm_num) (by norm_num) (by norm_num)

/-- On a range of small integers the conversion to `long` is defined on every machine
for every argument of magnitude at most 64: the scaled value stays below `2 ^ 31`. -/
theorem conversionDefined_of_abs_le (pf : Machine) (minVol maxVol : Int) (v : ℚ)
    (hmin : -(2 ^ 24) ≤ minVol) (hmax : maxVol ≤ 2 ^ 24) (hr : minVol ≤ maxVol)
    (hd : maxVol - minVol ≤ 2 ^ 24) (hv : |v| ≤ 64) :
    ConversionDefined pf (floatExpr pf minVol maxVol (float.finite v)) := by
  have hd0 : (0 : ℚ) ≤ ((maxVol - minVol : Int) : ℚ) := by exact_mod_cast Int.sub_nonneg.mpr hr
  have hd1 : ((maxVol - minVol : Int) : ℚ) ≤ 2 ^ 24 := by exact_mod_cast hd
  have hm1 : (-(2 ^ 24) : ℚ) ≤ (minVol : ℚ) := by exact_mod_cast hmin
  have hm2 : (minVol : ℚ) ≤ 2 ^ 24 := by
    have : minVol ≤ 2 ^ 24 := by omega
    exact_mod_cast this
  have hx1 : |v * ((maxVol - minVol : Int) : ℚ)| ≤ 2 ^ 30 := by
    rw [abs_mul, abs_of_nonneg hd0]
    calc |v| * ((maxVol - minVol : Int) : ℚ) ≤ 64 * 2 ^ 24 :=
          mul_le_mul hv hd1 hd0 (by norm_num)
      _ = 2 ^ 30 := by norm_num
  have e1 := abs_roundFinite_sub_le (v * ((maxVol - minVol : Int) : ℚ))
  have q1 : |v * ((maxVol - minVol : Int) : ℚ)| / 2 ^ 24 ≤ 64 := by
    have := div_le_div_of_nonneg_right hx1 (by norm_num : (0 : ℚ) ≤ 2 ^ 24)
    have e : (2 : ℚ) ^ 30 / 2 ^ 24 = 64 := by norm_num
    linarith
  have htiny : (1 : ℚ) / 2 ^ 150 ≤ 1 := by norm_num
  have hr1 : |roundFinite (v * ((maxVol - minVol : Int) : ℚ))| ≤ 2 ^ 30 + 65 := by
    have h := abs_le.mp e1
    have h2 := abs_le.mp hx1
    rw [abs_le]
    constructor <;> linarith
  have hp : roundToSingle (v * ((maxVol - minVol : Int) : ℚ)) =
      float.finite (roundFinite (v * ((maxVol - minVol : Int) : ℚ))) := by
    unfold roundToSingle
    rw [if_pos (lt_of_le_of_lt hr1 (by norm_num))]
  have hx2 : |(minVol : ℚ) + roundFinite (v * ((maxVol - minVol : Int) : ℚ))| ≤
      2 ^ 30 + 2 ^ 24 + 65 := by
    have h := abs_le.mp hr1
    rw [abs_le]
    constructor <;> linarith
  have e2 := abs_roundFinite_sub_le
    ((minVol : ℚ) + roundFinite (v * ((maxVol - minVol : Int) : ℚ)))
  have q2 : |(minVol : ℚ) + roundFinite (v * ((maxVol - minVol : Int) : ℚ))| / 2 ^ 24 ≤ 66 := by
    have := div_le_div_of_nonneg_right hx2 (by norm_num : (0 : ℚ) ≤ 2 ^ 24)
    have e : ((2 : ℚ) ^ 30 + 2 ^ 24 + 65) / 2 ^ 24 ≤ 66 := by norm_num
    linarith
  have hr2 : |singleScaled minVol maxVol v| ≤ 2 ^ 31 - 1 := by
    unfold singleScaled
    have h := abs_le.mp e2
    have h2 := abs_le.mp hx2
    rw [abs_le]
    constructor <;> norm_num at * <;> linarith
  have hs : roundToSingle ((minVol : ℚ) + roundFinite (v * ((maxVol - minVol : Int) : ℚ))) =
      float.finite (singleScaled minVol maxVol v) := by
    have hlt : |roundFinite ((minVol : ℚ) + roundFinite (v * ((maxVol - minVol : Int) : ℚ)))| <
        2 ^ 128 := lt_of_le_of_lt hr2 (by norm_num)
    unfold roundToSingle
    rw [if_pos hlt]
    rfl
  have hfe : floatExpr pf minVol maxVol (float.finite v) =
      float.finite (singleScaled minVol maxVol v) := by
    rw [floatExpr_small pf minVol maxVol v hmin hmax hr hd, hp]
    exact hs
  have hlr := long_range pf
  have hb := abs_le.mp hr2
  have t1 := le_truncate (singleScaled minVol maxVol v) (-(2 ^ 31 - 1))
    (by push_cast; linarith [hb.1])
  have t2 := truncate_le (singleScaled minVol maxVol v) (2 ^ 31 - 1)
    (by push_cast; linarith [hb.2])
  rw [hfe]
  unfold ConversionDefined
  constructor <;> omega

theorem boundedVolume_above (pf : Machine) :
    boundedVolume pf 0 87 (float.finite (3 / 2)) = 87 :=
  boundedVolume_gt_one pf 0 87 (3 / 2) (by norm_num) (by norm_num) (by norm_num) (by norm_num)
    (by norm_num)
    (conversionDefined_of_abs_le pf 0 87 (3 / 2) (by norm_num) (by norm_num) (by norm_num)
      (by norm_num) (by norm_num [abs_of_pos]))

theorem boundedVolume_below (pf : Machine) :
    boundedVolume pf 0 87 (float.finite (-1 / 2)) = 0 :=
  boundedVolume_neg pf 0 87 (-1 / 2) (by norm_num) (by norm_num) (by norm_num) (by norm_num)
    (by norm_num)
    (conversionDefined_of_abs_le pf 0 87 (-1 / 2) (by norm_num) (by norm_num) (by norm_num)
      (by norm_num) (by norm_num [abs_le]))

/-- The value recorded for an argument in `[0, 1]` over a range of small integers: the
single-precision value with its fractional part discarded.  It lies in the range, so the
clamp lines leave it alone, and the single-precision value is within two rounding errors
of the exact one. -/
theorem recorded_unit (pf : Machine) (minVol maxVol : Int) (v : ℚ)
    (hs : SingleRange minVol maxVol) (h0 : 0 ≤ v) (h1 : v ≤ 1) :
    boundedVolume pf minVol maxVol (float.finite v) =
        truncate (singleScaled minVol maxVol v) ∧
      minVol ≤ truncate (singleScaled minVol maxVol v) ∧
      truncate (singleScaled minVol maxVol v) ≤ maxVol ∧
      |singleScaled minVol maxVol v - scaled minVol maxVol v| ≤
        3 * (max |minVol| |maxVol| : Int) / 2 ^ 24 + 1 / 2 ^ 149 := by
  obtain ⟨hmin, hr, hmax, hd⟩ := hs
  have hb := boundedVolume_unit pf minVol maxVol v hmin hmax hr hd h0 h1
  exact ⟨hb.1, hb.2.1, hb.2.2,
    (singleScaled_unit pf minVol maxVol v hmin hmax hr hd h0 h1).2.2.2⟩

theorem truncate_scaled_hundredth : truncate (scaled 0 100 (5368709 / 536870912)) = 0 := by
  apply truncate_eq _ 0 <;> norm_num [scaled]

/-! ## Loops over a column: lemmas -/

theorem matched_device_ne_zero (device : Nat) (p : alsa_properties_t) (h : Matched device p) :
    p.device ≠ 0 := by
  intro h0
  apply h
  rw [h0]
  exact Nat.zero_and device

theorem volumeLoop_writes (pf : Machine) (drv : Driver) (mk : Nat → Int → HwWrite) (device : Nat) (v : float) :
    ∀ (tbl : List alsa_properties_t) (tr : List HwWrite),
      ∃ ws, (volumeLoop pf drv mk device v tbl tr).writes = tr ++ ws := by
  intro tbl
  induction tbl with
  | nil => intro tr; exact ⟨[], by simp [volumeLoop]⟩
  | cons q qs ih =>
    intro tr
    unfold volumeLoop
    split_ifs with h0 hm
    · exact ⟨[], by simp⟩
    · cases hi : q.mInfo with
      | none => exact ⟨[], by simp⟩
      | some info =>
        cases he : info.elem with
        | none => exact ⟨[], by simp [he]⟩
        | some e =>
          obtain ⟨ws, hws⟩ := ih (tr ++ [mk e.id (boundedVolume pf info.min info.max v)])
          exact ⟨mk e.id (boundedVolume pf info.min info.max v) :: ws, by simp [he, hws]⟩
    · obtain ⟨ws, hws⟩ := ih tr
      exact ⟨ws, by simp [hws]⟩

theorem volumeLoop_getElem (pf : Machine) (drv : Driver) (mk : Nat → Int → HwWrite) (device : Nat) (v : float) :
    ∀ (tbl : List alsa_properties_t) (tr : List HwWrite) (j : Nat) (p : alsa_properties_t)
      (info : mixer_info_t) (e : snd_mixer_elem_t),
      tbl[j]? = some p →
      (∀ k, k < j → ∀ q, tbl[k]? = some q → q.device ≠ 0 ∧ (Matched device q → Bound q)) →
      Matched device p → p.mInfo = some info → info.elem = some e →
      (volumeLoop pf drv mk device v tbl tr).state[j]? =
          some (withVolume p info (boundedVolume pf info.min info.max v)) ∧
        mk e.id (boundedVolume pf info.min info.max v) ∈
          (volumeLoop pf drv mk device v tbl tr).writes := by
  intro tbl
  induction tbl with
  | nil => intro tr j p info e hj; simp at hj
  | cons q qs ih =>
    intro tr j p info e hj hpre hm hi he
    cases j with
    | zero =>
      simp at hj
      subst hj
      have h0 := matched_device_ne_zero device q hm
      have hm2 : q.device &&& device ≠ 0 := hm
      obtain ⟨ws, hws⟩ := volumeLoop_writes pf drv mk device v qs
        (tr ++ [mk e.id (boundedVolume pf info.min info.max v)])
      unfold volumeLoop
      simp [h0, hm2, hi, he, withVolume, hws]
    | succ k =>
      simp at hj
      have hq := hpre 0 (by omega) q (by simp)
      have hpre2 : ∀ i, i < k → ∀ r, qs[i]? = some r →
          r.device ≠ 0 ∧ (Matched device r → Bound r) := by
        intro i hik r hr
        exact hpre (i + 1) (by omega) r (by simpa using hr)
      by_cases hmq : q.device &&& device ≠ 0
      · obtain ⟨qi, qe, hqi, hqe⟩ := hq.2 hmq
        have := ih (tr ++ [mk qe.id (boundedVolume pf qi.min qi.max v)]) k p info e hj hpre2 hm hi he
        unfold volumeLoop
        simp [hq.1, hmq, hqi, hqe, this]
      · have := ih tr k p info e hj hpre2 hm hi he
        unfold volumeLoop
        simp [hq.1, hmq, this]

theorem setMasterEntry_bound (pf : Machine) (drv : Driver) (mk : Nat → Int → HwWrite) (p : alsa_properties_t)
    (v : float) (info : mixer_info_t) (e : snd_mixer_elem_t) (hi : p.mInfo = some info)
    (he : info.elem = some e) :
    setMasterEntry pf drv mk p v =
      ⟨NO_ERROR, withVolume p info (boundedVolume pf info.min info.max v),
        [mk e.id (boundedVolume pf info.min info.max v)]⟩ := by
  unfold setMasterEntry
  simp [hi, he, withVolume]

theorem registered_head (q : alsa_properties_t) (qs : List alsa_properties_t)
    (h : q.device ≠ 0) : Registered (q :: qs) 0 := by
  refine ⟨by simp, ?_⟩
  intro k hk r hr
  have hk0 : k = 0 := by omega
  subst hk0
  simp at hr
  subst hr
  exact h

theorem registered_tail (q : alsa_properties_t) (qs : List alsa_properties_t) (j : Nat)
    (h : q.device ≠ 0) (hj : Registered qs j) : Registered (q :: qs) (j + 1) := by
  refine ⟨by simpa using hj.1, ?_⟩
  intro k hk r hr
  cases k with
  | zero =>
    simp at hr
    subst hr
    exact h
  | succ i => exact hj.2 i (by omega) r (by simpa using hr)

theorem registered_before (tbl : List alsa_properties_t) (j k : Nat) (hk : k ≤ j)
    (hj : Registered tbl j) : Registered tbl k :=
  ⟨lt_of_le_of_lt hk hj.1, fun i hi r hr => hj.2 i (le_trans hi hk) r hr⟩

theorem volumeLoop_status (pf : Machine) (drv : Driver) (mk : Nat → Int → HwWrite) (device : Nat) (v : float) :
    ∀ (tbl : List alsa_properties_t) (tr : List HwWrite),
      (∀ j q, Registered tbl j → tbl[j]? = some q → Matched device q → Bound q) →
      (volumeLoop pf drv mk device v tbl tr).status = NO_ERROR := by
  intro tbl
  induction tbl with
  | nil => intro tr _; simp [volumeLoop]
  | cons q qs ih =>
    intro tr hall
    by_cases h0 : q.device = 0
    · unfold volumeLoop
      simp [h0]
    · have htail : ∀ j r, Registered qs j → qs[j]? = some r → Matched device r → Bound r := by
        intro j r hj hr hm
        exact hall (j + 1) r (registered_tail q qs j h0 hj) (by simpa using hr) hm
      by_cases hm : q.device &&& device ≠ 0
      · obtain ⟨qi, qe, hqi, hqe⟩ := hall 0 q (registered_head q qs h0) (by simp) hm
        unfold volumeLoop
        simp [h0, hm, hqi, hqe, ih _ htail]
      · unfold volumeLoop
        simp [h0, hm, ih _ htail]

/-- A loop that steps over unmatched entries and stops with `INVALID_OPERATION` at a matched
entry without a control returns that code, untouched tables and no new write when the first
matched entry has no control. -/
theorem loop_first_unbound
    (loop : List alsa_properties_t → List HwWrite → Outcome (List alsa_properties_t))
    (device : Nat)
    (hskip : ∀ q qs tr, q.device ≠ 0 → ¬ Matched device q →
      loop (q :: qs) tr = ⟨(loop qs tr).status, q :: (loop qs tr).state, (loop qs tr).writes⟩)
    (hunb : ∀ q qs tr, Matched device q → ¬ Bound q →
      loop (q :: qs) tr = ⟨INVALID_OPERATION, q :: qs, tr⟩) :
    ∀ (tbl : List alsa_properties_t) (tr : List HwWrite) (j : Nat) (p : alsa_properties_t),
      FirstMatched device tbl j p → ¬ Bound p → loop tbl tr = ⟨INVALID_OPERATION, tbl, tr⟩ := by
  intro tbl
  induction tbl with
  | nil => intro tr j p hf; simp [FirstMatched] at hf
  | cons q qs ih =>
    intro tr j p hf hb
    obtain ⟨hj, hm, hpre⟩ := hf
    cases j with
    | zero =>
      simp at hj
      subst hj
      exact hunb q qs tr hm hb
    | succ k =>
      have hq := hpre 0 (by omega) q (by simp)
      have hf2 : FirstMatched device qs k p :=
        ⟨by simpa using hj, hm, fun i hi r hr => hpre (i + 1) (by omega) r (by simpa using hr)⟩
      rw [hskip q qs tr hq.1 hq.2, ih tr k p hf2 hb]

/-- A loop that steps over unmatched entries and ends with `NO_ERROR` at the sentinel or at
the end of the column returns `NO_ERROR`, untouched tables and no new write when no
registered entry is matched. -/
theorem loop_no_match
    (loop : List alsa_properties_t → List HwWrite → Outcome (List alsa_properties_t))
    (device : Nat)
    (hnil : ∀ tr, loop [] tr = ⟨NO_ERROR, [], tr⟩)
    (hsent : ∀ q qs tr, q.device = 0 → loop (q :: qs) tr = ⟨NO_ERROR, q :: qs, tr⟩)
    (hskip : ∀ q qs tr, q.device ≠ 0 → ¬ Matched device q →
      loop (q :: qs) tr = ⟨(loop qs tr).status, q :: (loop qs tr).state, (loop qs tr).writes⟩) :
    ∀ (tbl : List alsa_properties_t) (tr : List HwWrite),
      NoMatch device tbl → loop tbl tr = ⟨NO_ERROR, tbl, tr⟩ := by
  intro tbl
  induction tbl with
  | nil => intro tr _; exact hnil tr
  | cons q qs ih =>
    intro tr hno
    by_cases h0 : q.device = 0
    · exact hsent q qs tr h0
    · have hq : ¬ Matched device q := hno 0 q (registered_head q qs h0) (by simp)
      have hno2 : NoMatch device qs := fun j r hj hr =>
        hno (j + 1) r (registered_tail q qs j h0 hj) (by simpa using hr)
      rw [hskip q qs tr h0 hq, ih tr hno2]

theorem not_bound_cases (p : alsa_properties_t) (h : ¬ Bound p) :
    p.mInfo = none ∨ ∃ info, p.mInfo = some info ∧ info.elem = none := by
  cases hi : p.mInfo with
  | none => exact Or.inl rfl
  | some info =>
    cases he : info.elem with
    | none => exact Or.inr ⟨info, rfl, he⟩
    | some e => exact absurd ⟨info, e, hi, he⟩ h

theorem volumeLoop_nil (pf : Machine) (drv : Driver) (mk : Nat → Int → HwWrite) (device : Nat) (v : float)
    (tr : List HwWrite) : volumeLoop pf drv mk device v [] tr = ⟨NO_ERROR, [], tr⟩ := by
  simp [volumeLoop]

theorem volumeLoop_sentinel (pf : Machine) (drv : Driver) (mk : Nat → Int → HwWrite) (device : Nat) (v : float)
    (q : alsa_properties_t) (qs : List alsa_properties_t) (tr : List HwWrite)
    (h0 : q.device = 0) :
    volumeLoop pf drv mk device v (q :: qs) tr = ⟨NO_ERROR, q :: qs, tr⟩ := by
  unfold volumeLoop
  simp [h0]

theorem volumeLoop_skip (pf : Machine) (drv : Driver) (mk : Nat → Int → HwWrite) (device : Nat) (v : float)
    (q : alsa_properties_t) (qs : List alsa_properties_t) (tr : List HwWrite)
    (h0 : q.device ≠ 0) (hm : ¬ Matched device q) :
    volumeLoop pf drv mk device v (q :: qs) tr =
      ⟨(volumeLoop pf drv mk device v qs tr).status, q :: (volumeLoop pf drv mk device v qs tr).state,
        (volumeLoop pf drv mk device v qs tr).writes⟩ := by
  have hm2 : q.device &&& device = 0 := by simpa [Matched] using hm
  conv_lhs => unfold volumeLoop
  simp [h0, hm2]

theorem volumeLoop_unbound (pf : Machine) (drv : Driver) (mk : Nat → Int → HwWrite) (device : Nat) (v : float)
    (q : alsa_properties_t) (qs : List alsa_properties_t) (tr : List HwWrite)
    (hm : Matched device q) (hb : ¬ Bound q) :
    volumeLoop pf drv mk device v (q :: qs) tr = ⟨INVALID_OPERATION, q :: qs, tr⟩ := by
  have h0 := matched_device_ne_zero device q hm
  have hm2 : q.device &&& device ≠ 0 := hm
  unfold volumeLoop
  rcases not_bound_cases q hb with hi | ⟨info, hi, he⟩
  · simp [h0, hm2, hi]
  · simp [h0, hm2, hi, he]

theorem captureMuteLoop_nil (drv : Driver) (device : Nat) (st : Bool) (tr : List HwWrite) :
    captureMuteLoop drv device st [] tr = ⟨NO_ERROR, [], tr⟩ := by
  simp [captureMuteLoop]

theorem captureMuteLoop_sentinel (drv : Driver) (device : Nat) (st : Bool)
    (q : alsa_properties_t) (qs : List alsa_properties_t) (tr : List HwWrite)
    (h0 : q.device = 0) :
    captureMuteLoop drv device st (q :: qs) tr = ⟨NO_ERROR, q :: qs, tr⟩ := by
  unfold captureMuteLoop
  simp [h0]

theorem captureMuteLoop_skip (drv : Driver) (device : Nat) (st : Bool)
    (q : alsa_properties_t) (qs : List alsa_properties_t) (tr : List HwWrite)
    (h0 : q.device ≠ 0) (hm : ¬ Matched device q) :
    captureMuteLoop drv device st (q :: qs) tr =
      ⟨(captureMuteLoop drv device st qs tr).status,
        q :: (captureMuteLoop drv device st qs tr).state,
        (captureMuteLoop drv device st qs tr).writes⟩ := by
  have hm2 : q.device &&& device = 0 := by simpa [Matched] using hm
  conv_lhs => unfold captureMuteLoop
  simp [h0, hm2]

theorem captureMuteLoop_unbound (drv : Driver) (device : Nat) (st : Bool)
    (q : alsa_properties_t) (qs : List alsa_properties_t) (tr : List HwWrite)
    (hm : Matched device q) (hb : ¬ Bound q) :
    captureMuteLoop drv device st (q :: qs) tr = ⟨INVALID_OPERATION, q :: qs, tr⟩ := by
  have h0 := matched_device_ne_zero device q hm
  have hm2 : q.device &&& device ≠ 0 := hm
  unfold captureMuteLoop
  rcases not_bound_cases q hb with hi | ⟨info, hi, he⟩
  · simp [h0, hm2, hi]
  · simp [h0, hm2, hi, he]

theorem playbackMuteLoop_nil (drv : Driver) (device : Nat) (st : Bool) (tr : List HwWrite) :
    playbackMuteLoop drv device st [] tr = ⟨NO_ERROR, [], tr⟩ := by
  simp [playbackMuteLoop]

theorem playbackMuteLoop_sentinel (drv : Driver) (device : Nat) (st : Bool)
    (q : alsa_properties_t) (qs : List alsa_properties_t) (tr : List HwWrite)
    (h0 : q.device = 0) :
    playbackMuteLoop drv device st (q :: qs) tr = ⟨NO_ERROR, q :: qs, tr⟩ := by
  unfold playbackMuteLoop
  simp [h0]

theorem playbackMuteLoop_skip (drv : Driver) (device : Nat) (st : Bool)
    (q : alsa_properties_t) (qs : List alsa_properties_t) (tr : List HwWrite)
    (h0 : q.device ≠ 0) (hm : ¬ Matched device q) :
    playbackMuteLoop drv device st (q :: qs) tr =
      ⟨(playbackMuteLoop drv device st qs tr).status,
        q :: (playbackMuteLoop drv device st qs tr).state,
        (playbackMuteLoop drv device st qs tr).writes⟩ := by
  have hm2 : q.device &&& device = 0 := by simpa [Matched] using hm
  conv_lhs => unfold playbackMuteLoop
  simp [h0, hm2]

theorem playbackMuteLoop_unbound (drv : Driver) (device : Nat) (st : Bool)
    (q : alsa_properties_t) (qs : List alsa_properties_t) (tr : List HwWrite)
    (hm : Matched device q) (hb : ¬ Bound q) :
    playbackMuteLoop drv device st (q :: qs) tr = ⟨INVALID_OPERATION, q :: qs, tr⟩ := by
  have h0 := matched_device_ne_zero device q hm
  have hm2 : q.device &&& device ≠ 0 := hm
  unfold playbackMuteLoop
  rcases not_bound_cases q hb with hi | ⟨info, hi, he⟩
  · simp [h0, hm2, hi]
  · simp [h0, hm2, hi, he]

theorem getMuteLoop_first_unbound (device : Nat) (old : Bool) :
    ∀ (tbl : List alsa_properties_t) (j : Nat) (p : alsa_properties_t),
      FirstMatched device tbl j p → ¬ Bound p →
      getMuteLoop device old tbl = (INVALID_OPERATION, old) := by
  intro tbl
  induction tbl with
  | nil => intro j p hf; simp [FirstMatched] at hf
  | cons q qs ih =>
    intro j p hf hb
    obtain ⟨hj, hm, hpre⟩ := hf
    cases j with
    | zero =>
      simp at hj
      subst hj
      have h0 := matched_device_ne_zero device q hm
      have hm2 : q.device &&& device ≠ 0 := hm
      unfold getMuteLoop
      rcases not_bound_cases q hb with hi | ⟨info, hi, he⟩
      · simp [h0, hm2, hi]
      · simp [h0, hm2, hi, he]
    | succ k =>
      have hq := hpre 0 (by omega) q (by simp)
      have hm2 : q.device &&& device = 0 := by simpa [Matched] using hq.2
      have hf2 : FirstMatched device qs k p :=
        ⟨by simpa using hj, hm, fun i hi r hr => hpre (i + 1) (by omega) r (by simpa using hr)⟩
      unfold getMuteLoop
      simp [hq.1, hm2, ih k p hf2 hb]

theorem getMuteLoop_no_match (device : Nat) (old : Bool) :
    ∀ (tbl : List alsa_properties_t), NoMatch device tbl →
      getMuteLoop device old tbl = (BAD_VALUE, old) := by
  intro tbl
  induction tbl with
  | nil => intro _; simp [getMuteLoop]
  | cons q qs ih =>
    intro hno
    by_cases h0 : q.device = 0
    · unfold getMuteLoop
      simp [h0]
    · have hq : ¬ Matched device q := hno 0 q (registered_head q qs h0) (by simp)
      have hm2 : q.device &&& device = 0 := by simpa [Matched] using hq
      have hno2 : NoMatch device qs := fun j r hj hr =>
        hno (j + 1) r (registered_tail q qs j h0 hj) (by simpa using hr)
      unfold getMuteLoop
      simp [h0, hm2, ih hno2]

theorem setMasterEntry_unbound (pf : Machine) (drv : Driver) (mk : Nat → Int → HwWrite) (p : alsa_properties_t)
    (v : float) (hb : ¬ Bound p) : setMasterEntry pf drv mk p v = ⟨INVALID_OPERATION, p, []⟩ := by
  unfold setMasterEntry
  rcases not_bound_cases p hb with hi | ⟨info, hi, he⟩
  · simp [hi]
  · simp [hi, he]

theorem demo_no_match_playback : NoMatch 4 demoMixer.playback := by
  intro j q hj hq hm
  match j with
  | 0 =>
    simp [demoMixer] at hq
    subst hq
    exact absurd hm (by unfold Matched; decide)
  | 1 =>
    simp [demoMixer] at hq
    subst hq
    exact absurd hm (by unfold Matched; decide)
  | 2 =>
    simp [demoMixer] at hq
    subst hq
    exact absurd hm (by unfold Matched; decide)
  | k + 3 => simp [demoMixer] at hq

theorem demo_no_match_capture : NoMatch 4 demoMixer.capture := by
  intro j q hj hq hm
  match j with
  | 0 =>
    simp [demoMixer] at hq
    subst hq
    exact absurd hm (by unfold Matched; decide)
  | 1 =>
    simp [demoMixer] at hq
    subst hq
    exact absurd hm (by unfold Matched; decide)
  | 2 =>
    simp [demoMixer] at hq
    subst hq
    exact absurd hm (by unfold Matched; decide)
  | k + 3 => simp [demoMixer] at hq

theorem unbound_first_matched_playback :
    FirstMatched 2 unboundMixer.playback 1 ⟨2, some unboundInfo⟩ := by
  refine ⟨rfl, by unfold Matched; decide, ?_⟩
  intro k hk q hq
  have hk0 : k = 0 := by omega
  subst hk0
  simp [unboundMixer] at hq
  subst hq
  exact ⟨by decide, by unfold Matched; decide⟩

theorem unbound_first_matched_capture :
    FirstMatched 2 unboundMixer.capture 1 ⟨2, some unboundInfo⟩ := by
  refine ⟨rfl, by unfold Matched; decide, ?_⟩
  intro k hk q hq
  have hk0 : k = 0 := by omega
  subst hk0
  simp [unboundMixer] at hq
  subst hq
  exact ⟨by decide, by unfold Matched; decide⟩

theorem unboundInfo_not_bound : ¬ Bound ⟨2, some unboundInfo⟩ := by
  rintro ⟨info, e, hi, he⟩
  simp at hi
  subst hi
  simp [unboundInfo] at he

theorem demo_matched_bound_playback (device : Nat) :
    ∀ j q, Registered demoMixer.playback j → demoMixer.playback[j]? = some q →
      Matched device q → Bound q := by
  intro j q hj hq _
  match j with
  | 0 =>
    simp [demoMixer] at hq
    subst hq
    exact ⟨pcmInfo, pcmElem, rfl, rfl⟩
  | 1 =>
    simp [demoMixer] at hq
    subst hq
    exact ⟨pcmInfo, pcmElem, rfl, rfl⟩
  | 2 =>
    simp [demoMixer] at hq
    subst hq
    exact absurd rfl (hj.2 2 (le_refl 2) ⟨0, none⟩ rfl)
  | k + 3 => simp [demoMixer] at hq

theorem demo_registered_one_playback : Registered demoMixer.playback 1 := by
  refine ⟨by decide, ?_⟩
  intro k hk q hq
  have hk2 : k = 0 ∨ k = 1 := by omega
  rcases hk2 with hk2 | hk2 <;> subst hk2 <;> simp [demoMixer] at hq <;> subst hq <;> decide

/-! ## C1: the native value the volume setters record -/

/-- C1, as stated, fails: on the range `[0, 87]` the call `setMasterVolume(0.5)` records 43,
while `clamp(round(0 + 0.5 * 87), 0, 87)` is 44; and on the range `[0, 5]` the call
`setMasterGain(0.75)` records 3, while rounding 3.75 gives 4 under every tie rule.  The
arguments `0.5` and `0.75` and the scaled values `43.5` and `3.75` are singles, so the
single-precision arithmetic is exact here and the difference is the truncation alone. -/
theorem setMasterVolume_half_is_43_not_44 :
    ((demoMixer.setMasterVolume lp64 okDriver (float.finite (1 / 2))).state.masterPlayback.mInfo.map
        (fun i => i.volume) = some 43 ∧
      clamp (round (scaled 0 87 (1 / 2))) 0 87 = 44) ∧
    ((demoMixer.setMasterGain lp64 okDriver (float.finite (3 / 4))).state.masterCapture.mInfo.map
        (fun i => i.volume) = some 3 ∧
      clamp (round (scaled 0 5 (3 / 4))) 0 5 = 4) := by
  have h1 : boundedVolume lp64 0 87 (float.finite (1 / 2)) = 43 := boundedVolume_half lp64
  have h2 : boundedVolume lp64 0 5 (float.finite (3 / 4)) = 3 :=
    boundedVolume_three_quarters lp64
  have h3 : round (scaled 0 87 (1 / 2)) = 44 := by
    norm_num [scaled, round_eq, Int.floor_eq_iff]
  have h4 : round (scaled 0 5 (3 / 4)) = 4 := by
    norm_num [scaled, round_eq, Int.floor_eq_iff]
  refine ⟨⟨?_, ?_⟩, ?_, ?_⟩
  · simp only [ALSAMixer.setMasterVolume, setMasterEntry, demoMixer, pcmInfo, h1,
      Option.map_some']
  · rw [h3]; decide
  · simp only [ALSAMixer.setMasterGain, setMasterEntry, demoMixer, micInfo, h2,
      Option.map_some']
  · rw [h4]; decide

/-- C1 (amended): on every machine, for a bound binding whose native range satisfies
`-2^24 ≤ min ≤ max ≤ 2^24` and `max - min ≤ 2^24`, and a finite argument `v` in `[0, 1]`,
each of `setMasterVolume`, `setMasterGain`, `setVolume`, `setGain` records and writes to
the hardware the integer part of the single-precision value of `min + v * (max - min)`:
the product and the sum are each rounded to the nearest single and the fractional part of
the result is discarded (truncation toward zero, not rounding to nearest).  That integer
lies in `[min, max]`, so the clamp leaves it as it is, and the single-precision value
differs from the exact `min + v * (max - min)` by at most
`3 * max(|min|, |max|) / 2^24 + 2^-149`.  For the two device-keyed setters the binding is
any matched entry `j` of the column such that the entries before it are not the sentinel
and, when matched, are bound. -/
theorem volume_setters_record_truncated_value (pf : Machine) (drv : Driver) (m : ALSAMixer)
    (v : ℚ) (h0 : 0 ≤ v) (h1 : v ≤ 1) :
    (∀ info e, m.masterPlayback.mInfo = some info → info.elem = some e →
      SingleRange info.min info.max →
      m.setMasterVolume pf drv (float.finite v) =
          ⟨NO_ERROR,
            { m with
              masterPlayback :=
                withVolume m.masterPlayback info
                  (truncate (singleScaled info.min info.max v)) },
            [HwWrite.set_playback_volume_all e.id
              (truncate (singleScaled info.min info.max v))]⟩ ∧
        info.min ≤ truncate (singleScaled info.min info.max v) ∧
        truncate (singleScaled info.min info.max v) ≤ info.max ∧
        |singleScaled info.min info.max v - scaled info.min info.max v| ≤
          3 * (max |info.min| |info.max| : Int) / 2 ^ 24 + 1 / 2 ^ 149) ∧
    (∀ info e, m.masterCapture.mInfo = some info → info.elem = some e →
      SingleRange info.min info.max →
      m.setMasterGain pf drv (float.finite v) =
          ⟨NO_ERROR,
            { m with
              masterCapture :=
                withVolume m.masterCapture info
                  (truncate (singleScaled info.min info.max v)) },
            [HwWrite.set_capture_volume_all e.id
              (truncate (singleScaled info.min info.max v))]⟩ ∧
        info.min ≤ truncate (singleScaled info.min info.max v) ∧
        truncate (singleScaled info.min info.max v) ≤ info.max ∧
        |singleScaled info.min info.max v - scaled info.min info.max v| ≤
          3 * (max |info.min| |info.max| : Int) / 2 ^ 24 + 1 / 2 ^ 149) ∧
    (∀ (device : Nat) (right : float) (j : Nat) p info e, m.playback[j]? = some p →
      (∀ k, k < j → ∀ q, m.playback[k]? = some q →
        q.device ≠ 0 ∧ (Matched device q → Bound q)) →
      Matched device p → p.mInfo = some info → info.elem = some e →
      SingleRange info.min info.max →
      (m.setVolume pf drv device (float.finite v) right).state.playback[j]? =
          some (withVolume p info (truncate (singleScaled info.min info.max v))) ∧
        HwWrite.set_playback_volume_all e.id (truncate (singleScaled info.min info.max v)) ∈
          (m.setVolume pf drv device (float.finite v) right).writes ∧
        info.min ≤ truncate (singleScaled info.min info.max v) ∧
        truncate (singleScaled info.min info.max v) ≤ info.max ∧
        |singleScaled info.min info.max v - scaled info.min info.max v| ≤
          3 * (max |info.min| |info.max| : Int) / 2 ^ 24 + 1 / 2 ^ 149) ∧
    (∀ (device j : Nat) p info e, m.capture[j]? = some p →
      (∀ k, k < j → ∀ q, m.capture[k]? = some q →
        q.device ≠ 0 ∧ (Matched device q → Bound q)) →
      Matched device p → p.mInfo = some info → info.elem = some e →
      SingleRange info.min info.max →
      (m.setGain pf drv device (float.finite v)).state.capture[j]? =
          some (withVolume p info (truncate (singleScaled info.min info.max v))) ∧
        HwWrite.set_capture_volume_all e.id (truncate (singleScaled info.min info.max v)) ∈
          (m.setGain pf drv device (float.finite v)).writes ∧
        info.min ≤ truncate (singleScaled info.min info.max v) ∧
        truncate (singleScaled info.min info.max v) ≤ info.max ∧
        |singleScaled info.min info.max v - scaled info.min info.max v| ≤
          3 * (max |info.min| |info.max| : Int) / 2 ^ 24 + 1 / 2 ^ 149) := by
  refine ⟨?_, ?_, ?_, ?_⟩
  · intro info e hi he hr
    have hb := recorded_unit pf info.min info.max v hr h0 h1
    refine ⟨?_, hb.2⟩
    simp only [ALSAMixer.setMasterVolume, setMasterEntry_bound pf drv _ _ _ info e hi he, hb.1]
  · intro info e hi he hr
    have hb := recorded_unit pf info.min info.max v hr h0 h1
    refine ⟨?_, hb.2⟩
    simp only [ALSAMixer.setMasterGain, setMasterEntry_bound pf drv _ _ _ info e hi he, hb.1]
  · intro device right j p info e hj hpre hm hi he hr
    have hb := recorded_unit pf info.min info.max v hr h0 h1
    have := volumeLoop_getElem pf drv HwWrite.set_playback_volume_all device (float.finite v)
      m.playback [] j p info e hj hpre hm hi he
    rw [hb.1] at this
    exact ⟨this.1, this.2, hb.2⟩
  · intro device j p info e hj hpre hm hi he hr
    have hb := recorded_unit pf info.min info.max v hr h0 h1
    have := volumeLoop_getElem pf drv HwWrite.set_capture_volume_all device (float.finite v)
      m.capture [] j p info e hj hpre hm hi he
    rw [hb.1] at this
    exact ⟨this.1, this.2, hb.2⟩

/-- Witness of C1 (amended): on the range `[0, 87]` of the demo mixer, `setMasterVolume(0.5)`
records and writes 43, the integer part of `43.5`, and `setVolume(2, 0.5, _)` records it in
the entry of class `2`.  On the range `[0, 100]`, `setMasterVolume(0.01f)`, the argument
being the single nearest to `0.01`, records 1: the product with 100 rounds up to the single
`1.0`, although the exact product is below 1 and its integer part is 0. -/
theorem volume_setters_record_truncated_value_witness :
    ((0 : ℚ) ≤ 1 / 2 ∧ (1 / 2 : ℚ) ≤ 1 ∧ SingleRange pcmInfo.min pcmInfo.max ∧
      demoMixer.setMasterVolume lp64 okDriver (float.finite (1 / 2)) =
        ⟨NO_ERROR,
          { demoMixer with
            masterPlayback :=
              withVolume demoMixer.masterPlayback pcmInfo
                (truncate (singleScaled pcmInfo.min pcmInfo.max (1 / 2))) },
          [HwWrite.set_playback_volume_all pcmElem.id
            (truncate (singleScaled pcmInfo.min pcmInfo.max (1 / 2)))]⟩ ∧
      (demoMixer.setVolume lp64 okDriver 2 (float.finite (1 / 2))
          (float.finite 0)).state.playback[1]? =
        some (withVolume ⟨2, some pcmInfo⟩ pcmInfo
          (truncate (singleScaled pcmInfo.min pcmInfo.max (1 / 2)))) ∧
      HwWrite.set_playback_volume_all pcmElem.id
          (truncate (singleScaled pcmInfo.min pcmInfo.max (1 / 2))) ∈
        (demoMixer.setVolume lp64 okDriver 2 (float.finite (1 / 2)) (float.finite 0)).writes ∧
      truncate (singleScaled pcmInfo.min pcmInfo.max (1 / 2)) = 43) ∧
    ((0 : ℚ) ≤ 5368709 / 536870912 ∧ (5368709 / 536870912 : ℚ) ≤ 1 ∧
      SingleRange percentInfo.min percentInfo.max ∧
      percentMixer.setMasterVolume lp64 okDriver (float.finite (5368709 / 536870912)) =
        ⟨NO_ERROR,
          { percentMixer with
            masterPlayback :=
              withVolume percentMixer.masterPlayback percentInfo
                (truncate (singleScaled percentInfo.min percentInfo.max
                  (5368709 / 536870912))) },
          [HwWrite.set_playback_volume_all pcmElem.id
            (truncate (singleScaled percentInfo.min percentInfo.max
              (5368709 / 536870912)))]⟩ ∧
      truncate (singleScaled percentInfo.min percentInfo.max (5368709 / 536870912)) = 1 ∧
      truncate (scaled percentInfo.min percentInfo.max (5368709 / 536870912)) = 0) := by
  have hr1 : SingleRange pcmInfo.min pcmInfo.max := by
    unfold SingleRange pcmInfo
    norm_num
  have hr2 : SingleRange percentInfo.min percentInfo.max := by
    unfold SingleRange percentInfo
    norm_num
  have h := volume_setters_record_truncated_value lp64 okDriver demoMixer (1 / 2)
    (by norm_num) (by norm_num)
  have g := volume_setters_record_truncated_value lp64 okDriver percentMixer
    (5368709 / 536870912) (by norm_num) (by norm_num)
  have hv := h.2.2.1 2 (float.finite 0) 1 ⟨2, some pcmInfo⟩ pcmInfo pcmElem rfl
    (by
      intro k hk q hq
      have hk0 : k = 0 := by omega
      subst hk0
      simp [demoMixer] at hq
      subst hq
      exact ⟨by decide, fun hm => absurd hm (by unfold Matched; decide)⟩)
    (by unfold Matched; decide) rfl rfl hr1
  have e1 : truncate (singleScaled pcmInfo.min pcmInfo.max (1 / 2)) = 43 := by
    show truncate (singleScaled 0 87 (1 / 2)) = 43
    rw [singleScaled_half]
    exact truncate_eq _ 43 (by norm_num) (by norm_num) (by norm_num)
  have e2 : truncate (singleScaled percentInfo.min percentInfo.max (5368709 / 536870912)) = 1 := by
    show truncate (singleScaled 0 100 (5368709 / 536870912)) = 1
    rw [singleScaled_hundredth]
    exact truncate_eq _ 1 (by norm_num) (by norm_num) (by norm_num)
  exact ⟨⟨by norm_num, by norm_num, hr1, (h.1 pcmInfo pcmElem rfl rfl hr1).1, hv.1, hv.2.1, e1⟩,
    by norm_num, by norm_num, hr2, (g.1 percentInfo pcmElem rfl rfl hr2).1, e2,
    truncate_scaled_hundredth⟩

/-! ## C2: saturation outside the unit interval -/

/-- C3: when the master binding has no resolved control, `setMasterVolume` and
`setMasterGain` return `INVALID_OPERATION`, write nothing to the hardware and leave the
tables as they were; when the first binding in registration order whose device class
intersects the mask has no resolved control, the same holds of `setVolume`, `setGain`,
`setCaptureMuteState` and `setPlaybackMuteState`, and `getCaptureMuteState` and
`getPlaybackMuteState` return `INVALID_OPERATION` without storing a state. -/
theorem unbound_target_returns_invalid_operation (pf : Machine) (drv : Driver) (m : ALSAMixer) :
    (∀ v, ¬ Bound m.masterPlayback → m.setMasterVolume pf drv v = ⟨INVALID_OPERATION, m, []⟩) ∧
    (∀ v, ¬ Bound m.masterCapture → m.setMasterGain pf drv v = ⟨INVALID_OPERATION, m, []⟩) ∧
    (∀ (device j : Nat) p, FirstMatched device m.playback j p → ¬ Bound p →
      (∀ left right, m.setVolume pf drv device left right = ⟨INVALID_OPERATION, m, []⟩) ∧
      (∀ state, m.setPlaybackMuteState drv device state = ⟨INVALID_OPERATION, m, []⟩) ∧
      (∀ old, m.getPlaybackMuteState device (some old) = (INVALID_OPERATION, some old))) ∧
    (∀ (device j : Nat) p, FirstMatched device m.capture j p → ¬ Bound p →
      (∀ gain, m.setGain pf drv device gain = ⟨INVALID_OPERATION, m, []⟩) ∧
      (∀ state, m.setCaptureMuteState drv device state = ⟨INVALID_OPERATION, m, []⟩) ∧
      (∀ old, m.getCaptureMuteState device (some old) = (INVALID_OPERATION, some old))) := by
  refine ⟨?_, ?_, ?_, ?_⟩
  · intro v hb
    simp only [ALSAMixer.setMasterVolume, setMasterEntry_unbound pf drv _ _ v hb]
  · intro v hb
    simp only [ALSAMixer.setMasterGain, setMasterEntry_unbound pf drv _ _ v hb]
  · intro device j p hf hb
    refine ⟨?_, ?_, ?_⟩
    · intro left right
      have h := loop_first_unbound (volumeLoop pf drv HwWrite.set_playback_volume_all device left)
        device (fun q qs tr => volumeLoop_skip pf drv _ device left q qs tr)
        (fun q qs tr => volumeLoop_unbound pf drv _ device left q qs tr) m.playback [] j p hf hb
      simp only [ALSAMixer.setVolume, h]
    · intro state
      have h := loop_first_unbound (playbackMuteLoop drv device state)
        device (fun q qs tr => playbackMuteLoop_skip drv device state q qs tr)
        (fun q qs tr => playbackMuteLoop_unbound drv device state q qs tr) m.playback [] j p hf hb
      simp only [ALSAMixer.setPlaybackMuteState, h]
    · intro old
      simp only [ALSAMixer.getPlaybackMuteState, getMuteLoop_first_unbound device old _ j p hf hb]
  · intro device j p hf hb
    refine ⟨?_, ?_, ?_⟩
    · intro gain
      have h := loop_first_unbound (volumeLoop pf drv HwWrite.set_capture_volume_all device gain)
        device (fun q qs tr => volumeLoop_skip pf drv _ device gain q qs tr)
        (fun q qs tr => volumeLoop_unbound pf drv _ device gain q qs tr) m.capture [] j p hf hb
      simp only [ALSAMixer.setGain, h]
    · intro state
      have h := loop_first_unbound (captureMuteLoop drv device state)
        device (fun q qs tr => captureMuteLoop_skip drv device state q qs tr)
        (fun q qs tr => captureMuteLoop_unbound drv device state q qs tr) m.capture [] j p hf hb
      simp only [ALSAMixer.setCaptureMuteState, h]
    · intro old
      simp only [ALSAMixer.getCaptureMuteState, getMuteLoop_first_unbound device old _ j p hf hb]

/-- Witness of C3: in the mixer whose entry of class `2` found no control, the mask `2`
first meets that entry, and `setVolume`, `setPlaybackMuteState`, `getPlaybackMuteState`
return `INVALID_OPERATION` there with nothing written. -/
theorem unbound_target_returns_invalid_operation_witness :
    FirstMatched 2 unboundMixer.playback 1 ⟨2, some unboundInfo⟩ ∧
    ¬ Bound ⟨2, some unboundInfo⟩ ∧
    ((∀ left right,
        unboundMixer.setVolume lp64 okDriver 2 left right = ⟨INVALID_OPERATION, unboundMixer, []⟩) ∧
      (∀ state,
        unboundMixer.setPlaybackMuteState okDriver 2 state =
          ⟨INVALID_OPERATION, unboundMixer, []⟩) ∧
      (∀ old,
        unboundMixer.getPlaybackMuteState 2 (some old) = (INVALID_OPERATION, some old))) :=
  ⟨unbound_first_matched_playback, unboundInfo_not_bound,
    (unbound_target_returns_invalid_operation lp64 okDriver unboundMixer).2.2.1 2 1
      ⟨2, some unboundInfo⟩ unbound_first_matched_playback unboundInfo_not_bound⟩

/-! ## C4: a mask that matches no binding -/

/-- C4, as stated, fails: the mask `4` intersects no registered class of the demo mixer
(classes `1` and `2`), and each of `setVolume`, `setGain`, `setPlaybackMuteState`,
`setCaptureMuteState` returns `NO_ERROR`, that is success, not an error. -/
theorem setters_succeed_on_unmatched_mask :
    NoMatch 4 demoMixer.playback ∧ NoMatch 4 demoMixer.capture ∧
    (demoMixer.setVolume lp64 okDriver 4 (float.finite (1 / 2)) (float.finite (1 / 2))).status = NO_ERROR ∧
    (demoMixer.setGain lp64 okDriver 4 (float.finite (1 / 2))).status = NO_ERROR ∧
    (demoMixer.setPlaybackMuteState okDriver 4 true).status = NO_ERROR ∧
    (demoMixer.setCaptureMuteState okDriver 4 true).status = NO_ERROR := by
  refine ⟨demo_no_match_playback, demo_no_match_capture, ?_, ?_, ?_, ?_⟩
  · have h := loop_no_match (volumeLoop lp64 okDriver HwWrite.set_playback_volume_all 4
      (float.finite (1 / 2))) 4
      (volumeLoop_nil _ _ _ _ _) (fun q qs tr => volumeLoop_sentinel _ _ _ _ _ q qs tr)
      (fun q qs tr => volumeLoop_skip _ _ _ _ _ q qs tr) demoMixer.playback []
      demo_no_match_playback
    simp only [ALSAMixer.setVolume, h]
  · have h := loop_no_match (volumeLoop lp64 okDriver HwWrite.set_capture_volume_all 4
      (float.finite (1 / 2))) 4
      (volumeLoop_nil _ _ _ _ _) (fun q qs tr => volumeLoop_sentinel _ _ _ _ _ q qs tr)
      (fun q qs tr => volumeLoop_skip _ _ _ _ _ q qs tr) demoMixer.capture []
      demo_no_match_capture
    simp only [ALSAMixer.setGain, h]
  · decide
  · decide

/-- C4 (amended): for a device mask that intersects the device class of no registered
binding, `getPlaybackMuteState` and `getCaptureMuteState` return `BAD_VALUE`, which is
neither `NO_ERROR` nor `INVALID_OPERATION`, and store no state; `setVolume`, `setGain`,
`setPlaybackMuteState` and `setCaptureMuteState` return `NO_ERROR`, write nothing to the
hardware and leave the tables as they were. -/
theorem unmatched_mask_outcomes (pf : Machine) (drv : Driver) (m : ALSAMixer) (device : Nat) :
    (NoMatch device m.playback →
      (∀ old, m.getPlaybackMuteState device (some old) = (BAD_VALUE, some old)) ∧
      (∀ left right, m.setVolume pf drv device left right = ⟨NO_ERROR, m, []⟩) ∧
      (∀ state, m.setPlaybackMuteState drv device state = ⟨NO_ERROR, m, []⟩)) ∧
    (NoMatch device m.capture →
      (∀ old, m.getCaptureMuteState device (some old) = (BAD_VALUE, some old)) ∧
      (∀ gain, m.setGain pf drv device gain = ⟨NO_ERROR, m, []⟩) ∧
      (∀ state, m.setCaptureMuteState drv device state = ⟨NO_ERROR, m, []⟩)) ∧
    BAD_VALUE ≠ NO_ERROR ∧ BAD_VALUE ≠ INVALID_OPERATION := by
  refine ⟨?_, ?_, by decide, by decide⟩
  · intro hno
    refine ⟨?_, ?_, ?_⟩
    · intro old
      simp only [ALSAMixer.getPlaybackMuteState, getMuteLoop_no_match device old _ hno]
    · intro left right
      have h := loop_no_match (volumeLoop pf drv HwWrite.set_playback_volume_all device left)
        device (volumeLoop_nil _ _ _ _ _) (fun q qs tr => volumeLoop_sentinel _ _ _ _ _ q qs tr)
        (fun q qs tr => volumeLoop_skip _ _ _ _ _ q qs tr) m.playback [] hno
      simp only [ALSAMixer.setVolume, h]
    · intro state
      have h := loop_no_match (playbackMuteLoop drv device state)
        device (playbackMuteLoop_nil _ _ _) (fun q qs tr => playbackMuteLoop_sentinel _ _ _ q qs tr)
        (fun q qs tr => playbackMuteLoop_skip _ _ _ q qs tr) m.playback [] hno
      simp only [ALSAMixer.setPlaybackMuteState, h]
  · intro hno
    refine ⟨?_, ?_, ?_⟩
    · intro old
      simp only [ALSAMixer.getCaptureMuteState, getMuteLoop_no_match device old _ hno]
    · intro gain
      have h := loop_no_match (volumeLoop pf drv HwWrite.set_capture_volume_all device gain)
        device (volumeLoop_nil _ _ _ _ _) (fun q qs tr => volumeLoop_sentinel _ _ _ _ _ q qs tr)
        (fun q qs tr => volumeLoop_skip _ _ _ _ _ q qs tr) m.capture [] hno
      simp only [ALSAMixer.setGain, h]
    · intro state
      have h := loop_no_match (captureMuteLoop drv device state)
        device (captureMuteLoop_nil _ _ _) (fun q qs tr => captureMuteLoop_sentinel _ _ _ q qs tr)
        (fun q qs tr => captureMuteLoop_skip _ _ _ q qs tr) m.capture [] hno
      simp only [ALSAMixer.setCaptureMuteState, h]

/-- Witness of C4 (amended): on the demo mixer the mask `4` matches nothing; the getter
returns `BAD_VALUE` and the setters return `NO_ERROR` with the tables untouched. -/
theorem unmatched_mask_outcomes_witness :
    NoMatch 4 demoMixer.playback ∧
    ((∀ old, demoMixer.getPlaybackMuteState 4 (some old) = (BAD_VALUE, some old)) ∧
      (∀ left right, demoMixer.setVolume lp64 okDriver 4 left right = ⟨NO_ERROR, demoMixer, []⟩) ∧
      (∀ state, demoMixer.setPlaybackMuteState okDriver 4 state = ⟨NO_ERROR, demoMixer, []⟩)) :=
  ⟨demo_no_match_playback,
    (unmatched_mask_outcomes lp64 okDriver demoMixer 4).1 demo_no_match_playback⟩

/-! ## C5: the render position across one write -/

/-- C5 at the failing input: an open stream with nothing rendered writes 8 bytes to a
transport with 4-byte frames that accepts one frame per write.  The call makes two
transport writes, accepts 4 + 4 = 8 bytes and returns 8, yet `getRenderPosition` moves
from 0 to 12: the loop adds the running total `sent` (4, then 8) instead of what each
write accepted. -/
theorem render_position_counts_first_chunk_twice :
    openStream.getRenderPosition = (NO_ERROR, 0) ∧
    (openStream.write oneFrameTransport 2 8).1 = some 8 ∧
    (openStream.write oneFrameTransport 2 8).2.getRenderPosition = (NO_ERROR, 12) ∧
    (openStream.write oneFrameTransport 2 8).2.log =
      [Event.acquire_wake_lock, Event.snd_pcm_writei 0 2, Event.snd_pcm_writei 4 1] := by
  decide

/-! ## The write loop: lemmas -/

theorem writeLoop_succ (env : Transport) (bytes fuel : Nat) (s : AudioStreamOutALSA)
    (sent : Nat) :
    AudioStreamOutALSA.writeLoop env bytes (fuel + 1) s sent =
      match AudioStreamOutALSA.writeBody env bytes s sent with
      | (some r, s1, sent1) => (some r, s1, sent1)
      | (none, s1, sent1) =>
        if s1.mHandle.handle && decide (sent1 < bytes) then
          AudioStreamOutALSA.writeLoop env bytes fuel s1 sent1
        else (some (sent1 : Int), s1, sent1) := by
  rfl

/-- Running `a + b` passes is running `a` passes and, when the loop is still going,
`b` more from the state reached. -/
theorem writeLoop_add (env : Transport) (bytes : Nat) :
    ∀ (a b : Nat) (s : AudioStreamOutALSA) (sent : Nat),
      AudioStreamOutALSA.writeLoop env bytes (a + b) s sent =
        match AudioStreamOutALSA.writeLoop env bytes a s sent with
        | (some r, s1, sent1) => (some r, s1, sent1)
        | (none, s1, sent1) => AudioStreamOutALSA.writeLoop env bytes b s1 sent1 := by
  intro a
  induction a with
  | zero =>
    intro b s sent
    simp [AudioStreamOutALSA.writeLoop]
  | succ n ih =>
    intro b s sent
    have e : n + 1 + b = (n + b) + 1 := by omega
    rw [e, writeLoop_succ, writeLoop_succ]
    rcases hb : AudioStreamOutALSA.writeBody env bytes s sent with ⟨r, s1, sent1⟩
    cases r with
    | some r => simp
    | none =>
      simp only
      split_ifs with hc
      · exact ih b s1 sent1
      · simp

/-- Once `write` has returned, a larger bound on the passes changes nothing. -/
theorem writeLoop_returned (env : Transport) (bytes a b : Nat) (s s1 : AudioStreamOutALSA)
    (sent sent1 : Nat) (r : Int)
    (h : AudioStreamOutALSA.writeLoop env bytes a s sent = (some r, s1, sent1)) :
    AudioStreamOutALSA.writeLoop env bytes (a + b) s sent = (some r, s1, sent1) := by
  rw [writeLoop_add, h]

/-- A loop still running after `a` passes continues from the state it reached. -/
theorem writeLoop_resume (env : Transport) (bytes a b : Nat) (s s1 : AudioStreamOutALSA)
    (sent sent1 : Nat)
    (h : AudioStreamOutALSA.writeLoop env bytes a s sent = (none, s1, sent1)) :
    AudioStreamOutALSA.writeLoop env bytes (a + b) s sent =
      AudioStreamOutALSA.writeLoop env bytes b s1 sent1 := by
  rw [writeLoop_add, h]

/-! ## C6: the device-gone branch -/

/-- A loop that is still running has made no pass at all, or has just found the handle
valid and bytes remaining. -/
theorem writeLoop_running (env : Transport) (bytes : Nat) :
    ∀ (fuel : Nat) (s s1 : AudioStreamOutALSA) (sent sent1 : Nat),
      AudioStreamOutALSA.writeLoop env bytes fuel s sent = (none, s1, sent1) →
      (fuel = 0 ∧ s1 = s ∧ sent1 = sent) ∨ (s1.mHandle.handle = true ∧ sent1 < bytes) := by
  intro fuel
  induction fuel with
  | zero =>
    intro s s1 sent sent1 h
    simp [AudioStreamOutALSA.writeLoop] at h
    exact Or.inl ⟨rfl, h.1.symm, h.2.symm⟩
  | succ n ih =>
    intro s s1 sent sent1 h
    rw [writeLoop_succ] at h
    rcases hb : AudioStreamOutALSA.writeBody env bytes s sent with ⟨r, s2, sent2⟩
    rw [hb] at h
    cases r with
    | some r => simp at h
    | none =>
      simp only at h
      split_ifs at h with hc
      · rcases ih s2 s1 sent2 sent1 h with ⟨h0, hs, hk⟩ | hr
        · subst hs hk
          simp at hc
          exact Or.inr hc
        · exact Or.inr hr
      · simp at h

/-- The byte count of the loop stays a whole number of frames. -/
theorem writeLoop_sent_dvd (env : Transport) (bytes : Nat) :
    ∀ (fuel : Nat) (s : AudioStreamOutALSA) (sent : Nat), env.frameBytes ∣ sent →
      env.frameBytes ∣ (AudioStreamOutALSA.writeLoop env bytes fuel s sent).2.2 := by
  intro fuel
  induction fuel with
  | zero => intro s sent h; simpa [AudioStreamOutALSA.writeLoop] using h
  | succ n ih =>
    intro s sent h
    have hbody : env.frameBytes ∣ (AudioStreamOutALSA.writeBody env bytes s sent).2.2 := by
      unfold AudioStreamOutALSA.writeBody
      simp only
      split_ifs <;> first | exact h | exact Dvd.dvd.add h (Dvd.intro_left _ rfl)
    rw [writeLoop_succ]
    rcases hb : AudioStreamOutALSA.writeBody env bytes s sent with ⟨r, s2, sent2⟩
    rw [hb] at hbody
    cases r with
    | some r => exact hbody
    | none =>
      simp only
      split_ifs
      · exact ih s2 sent2 hbody
      · exact hbody

/-- A pass whose transport write accepts `n` frames. -/
theorem writeBody_accept (env : Transport) (bytes : Nat) (s : AudioStreamOutALSA)
    (sent n : Nat)
    (h : env.snd_pcm_writei s.log ((bytes - sent) / env.frameBytes) = (n : Int)) :
    AudioStreamOutALSA.writeBody env bytes s sent =
      (none,
        { s.emit (Event.snd_pcm_writei sent ((bytes - sent) / env.frameBytes)) with
          framesRendered := s.framesRendered + (sent + n * env.frameBytes) },
        sent + n * env.frameBytes) := by
  have hn : ¬ ((n : Int) < 0) := not_lt.mpr (Int.ofNat_nonneg n)
  unfold AudioStreamOutALSA.writeBody
  simp only [h, hn, if_false, Int.toNat_ofNat, AudioStreamOutALSA.emit]

/-- A pass whose transport write fails with a code other than `-EBADFD` while the handle
is valid, and whose recovery returns 0. -/
theorem writeBody_recovered (env : Transport) (bytes : Nat) (s : AudioStreamOutALSA)
    (sent : Nat) (err : Int) (hhandle : s.mHandle.handle = true)
    (hfail : env.snd_pcm_writei s.log ((bytes - sent) / env.frameBytes) = err)
    (hneg : err < 0) (hne : err ≠ -EBADFD)
    (hrec : env.snd_pcm_recover
      (s.log ++ [Event.snd_pcm_writei sent ((bytes - sent) / env.frameBytes)]) err = 0) :
    AudioStreamOutALSA.writeBody env bytes s sent =
      (none, ((s.emit (Event.snd_pcm_writei sent ((bytes - sent) / env.frameBytes))).emit
        (Event.snd_pcm_recover err)).notifyRecover env 0, sent) := by
  have hh : (s.emit (Event.snd_pcm_writei sent ((bytes - sent) / env.frameBytes))).mHandle.handle
      = true := hhandle
  have hl : (s.emit (Event.snd_pcm_writei sent ((bytes - sent) / env.frameBytes))).log =
      s.log ++ [Event.snd_pcm_writei sent ((bytes - sent) / env.frameBytes)] := rfl
  unfold AudioStreamOutALSA.writeBody
  simp only [hfail, hneg, hne, if_true, if_false, hh, hl, hrec, ne_eq, not_true_eq_false]

/-- On the transport whose writes all succeed after the first, a loop that has 8 of 10
bytes accepted asks for zero frames, gets zero, and is still running after any number of
passes. -/
theorem underrun_loop_stuck :
    ∀ (fuel : Nat) (s : AudioStreamOutALSA), s.mHandle.handle = true →
      s.log.any Event.isWritei = true →
      (AudioStreamOutALSA.writeLoop underrunTransport 10 fuel s 8).1 = none := by
  intro fuel
  induction fuel with
  | zero => intro s _ _; rfl
  | succ n ih =>
    intro s hh hl
    have hw : underrunTransport.snd_pcm_writei s.log ((10 - 8) / underrunTransport.frameBytes) =
        ((0 : Nat) : Int) := by
      show (if s.log.any Event.isWritei then (((10 - 8) / 4 : Nat) : Int) else -EPIPE) = _
      rw [hl]
      rfl
    have hb := writeBody_accept underrunTransport 10 s 8 0 hw
    have hc : decide (8 + 0 * underrunTransport.frameBytes < 10) = true := by decide
    rw [writeLoop_succ, hb]
    simp only [AudioStreamOutALSA.emit, hh, Bool.true_and, hc, if_true]
    exact ih _ hh (by simp [Event.isWritei])

/-- C7, as stated, fails for a length that is not a whole number of frames: with 4-byte
frames, a first write failing with `-EPIPE`, a successful recovery and a transport that
then accepts every frame it is asked for, `write(buffer, 10)` never returns: after three
passes 8 bytes are accepted, and every later pass asks for `2 / 4 = 0` frames. -/
theorem write_of_ten_bytes_never_returns :
    (¬ ∃ fuel r, (openStream.write underrunTransport fuel 10).1 = some r) ∧
    AudioStreamOutALSA.writeLoop underrunTransport 10 3
        (openStream.writeBegin underrunTransport 10) 0 =
      (none,
        { mHandle := ⟨true, 2, 0⟩, mPowerLock := true, framesRendered := 16,
          log := [Event.acquire_wake_lock, Event.snd_pcm_writei 0 2,
            Event.snd_pcm_recover (-32), Event.snd_pcm_writei 0 2,
            Event.snd_pcm_writei 8 0] }, 8) := by
  have h3 : AudioStreamOutALSA.writeLoop underrunTransport 10 3
        (openStream.writeBegin underrunTransport 10) 0 =
      (none,
        { mHandle := ⟨true, 2, 0⟩, mPowerLock := true, framesRendered := 16,
          log := [Event.acquire_wake_lock, Event.snd_pcm_writei 0 2,
            Event.snd_pcm_recover (-32), Event.snd_pcm_writei 0 2,
            Event.snd_pcm_writei 8 0] }, 8) := by decide
  have e0 : (openStream.write underrunTransport 0 10).1 = none := by decide
  have e1 : (openStream.write underrunTransport 1 10).1 = none := by decide
  have e2 : (openStream.write underrunTransport 2 10).1 = none := by decide
  refine ⟨?_, h3⟩
  rintro ⟨fuel, r, hr⟩
  have hcases : fuel = 0 ∨ fuel = 1 ∨ fuel = 2 ∨ ∃ n, fuel = 3 + n := by
    rcases fuel with _ | _ | _ | n
    · exact Or.inl rfl
    · exact Or.inr (Or.inl rfl)
    · exact Or.inr (Or.inr (Or.inl rfl))
    · exact Or.inr (Or.inr (Or.inr ⟨n, by omega⟩))
  rcases hcases with h | h | h | ⟨n, h⟩
  · subst h
    rw [e0] at hr
    cases hr
  · subst h
    rw [e1] at hr
    cases hr
  · subst h
    rw [e2] at hr
    cases hr
  · subst h
    have hstuck := underrun_loop_stuck n
      { mHandle := ⟨true, 2, 0⟩, mPowerLock := true, framesRendered := 16,
        log := [Event.acquire_wake_lock, Event.snd_pcm_writei 0 2,
          Event.snd_pcm_recover (-32), Event.snd_pcm_writei 0 2,
          Event.snd_pcm_writei 8 0] } rfl (by decide)
    simp only [AudioStreamOutALSA.write, writeLoop_resume _ _ 3 n _ _ _ _ h3, hstuck] at hr
    cases hr

/-- C7 (amended): take a `write(buffer, bytes)` call with `bytes` a whole number of
transport frames, whose loop is still running after `j` passes with `k` bytes accepted and
a valid handle, and whose next transport write fails with a negative code other than
`-EBADFD`.  If the recovery primitive then returns 0 and the transport accepts every frame
of every later write, the loop resumes, ends within two more passes, and `write` returns
exactly `bytes`. -/
theorem write_recovers_and_returns_all_bytes (env : Transport) (s sj : AudioStreamOutALSA)
    (bytes j k extra : Nat) (err : Int)
    (hwhole : env.frameBytes ∣ bytes)
    (hrun : AudioStreamOutALSA.writeLoop env bytes j (s.writeBegin env bytes) 0 = (none, sj, k))
    (hhandle : sj.mHandle.handle = true)
    (hfail : env.snd_pcm_writei sj.log ((bytes - k) / env.frameBytes) = err)
    (hneg : err < 0) (hne : err ≠ -EBADFD)
    (hrec : env.snd_pcm_recover
      (sj.log ++ [Event.snd_pcm_writei k ((bytes - k) / env.frameBytes)]) err = 0)
    (hacc : ∀ (lg : List Event) (frames : Nat),
      env.snd_pcm_writei
        (sj.log ++ Event.snd_pcm_writei k ((bytes - k) / env.frameBytes) :: lg) frames =
          (frames : Int)) :
    (s.write env (j + (2 + extra)) bytes).1 = some (bytes : Int) := by
  have hk : env.frameBytes ∣ k := by
    have := writeLoop_sent_dvd env bytes j (s.writeBegin env bytes) 0 (dvd_zero _)
    rw [hrun] at this
    exact this
  have hkb : k ≤ bytes := by
    rcases writeLoop_running env bytes j _ sj 0 k hrun with ⟨_, _, h0⟩ | ⟨_, hlt⟩
    · omega
    · omega
  -- the pass with the failed write and the recovery
  have hbody1 := writeBody_recovered env bytes sj k err hhandle hfail hneg hne hrec
  have hh2 : (((sj.emit (Event.snd_pcm_writei k ((bytes - k) / env.frameBytes))).emit
        (Event.snd_pcm_recover err)).notifyRecover env 0).mHandle.handle = true := by
    cases hr : env.aDevRecover <;>
      simp [AudioStreamOutALSA.notifyRecover, AudioStreamOutALSA.emit, hr, hhandle]
  obtain ⟨lg, hlg⟩ : ∃ lg, (((sj.emit (Event.snd_pcm_writei k ((bytes - k) / env.frameBytes))).emit
        (Event.snd_pcm_recover err)).notifyRecover env 0).log =
        sj.log ++ Event.snd_pcm_writei k ((bytes - k) / env.frameBytes) :: lg := by
    cases hr : env.aDevRecover
    · exact ⟨[Event.snd_pcm_recover err], by
        simp [AudioStreamOutALSA.notifyRecover, AudioStreamOutALSA.emit, hr]⟩
    · exact ⟨[Event.snd_pcm_recover err, Event.aDev_recover 0], by
        simp [AudioStreamOutALSA.notifyRecover, AudioStreamOutALSA.emit, hr]⟩
  have hsum : k + (bytes - k) / env.frameBytes * env.frameBytes = bytes := by
    rw [Nat.div_mul_cancel ((Nat.dvd_sub' hwhole hk))]
    omega
  -- the pass after the recovery
  have hbody2 := writeBody_accept env bytes _ k ((bytes - k) / env.frameBytes)
    (by rw [hlg]; exact hacc lg _)
  rw [hsum] at hbody2
  have hloop : (AudioStreamOutALSA.writeLoop env bytes 2 sj k).1 = some (bytes : Int) := by
    rw [writeLoop_succ, hbody1]
    simp only [hh2, Bool.true_and]
    by_cases hlt : k < bytes
    · simp only [hlt, decide_True, if_true]
      rw [writeLoop_succ, hbody2]
      simp
    · have hkeq : k = bytes := by omega
      simp [hkeq]
  rcases hres : AudioStreamOutALSA.writeLoop env bytes 2 sj k with ⟨r, s2, sent2⟩
  rw [hres] at hloop
  simp only at hloop
  subst hloop
  have := writeLoop_returned env bytes 2 extra sj s2 k sent2 bytes hres
  simp only [AudioStreamOutALSA.write, writeLoop_resume env bytes j (2 + extra) _ sj 0 k hrun,
    this]

/-- Witness of C7 (amended): with 4-byte frames, `write(buffer, 8)` on the transport whose
first write fails with `-EPIPE`, whose recovery succeeds and which then accepts everything
returns 8. -/
theorem write_recovers_and_returns_all_bytes_witness :
    underrunTransport.frameBytes ∣ 8 ∧
    underrunTransport.snd_pcm_writei (openStream.writeBegin underrunTransport 8).log
      ((8 - 0) / underrunTransport.frameBytes) = -EPIPE ∧
    (openStream.write underrunTransport (0 + (2 + 0)) 8).1 = some ((8 : Nat) : Int) :=
  ⟨by decide, by decide,
    write_recovers_and_returns_all_bytes underrunTransport openStream
      (openStream.writeBegin underrunTransport 8) 8 0 0 0 (-EPIPE) (by decide) rfl rfl
      (by decide) (by decide) (by decide) (by decide)
      (by
        intro lg frames
        show (if ((openStream.writeBegin underrunTransport 8).log ++
            Event.snd_pcm_writei 0 ((8 - 0) / underrunTransport.frameBytes) :: lg).any
              Event.isWritei then (frames : Int) else -EPIPE) = (frames : Int)
        rw [if_pos]
        simp [Event.isWritei])⟩

/-! ## The loops are instances of the common skeleton -/

theorem volumeLoop_eq_columnLoop (pf : Machine) (drv : Driver) (mk : Nat → Int → HwWrite) (device : Nat)
    (v : float) :
    ∀ (tbl : List alsa_properties_t) (tr : List HwWrite),
      volumeLoop pf drv mk device v tbl tr = columnLoop device (volumeBody pf mk v) tbl tr := by
  intro tbl
  induction tbl with
  | nil => intro tr; simp [volumeLoop, columnLoop]
  | cons q qs ih =>
    intro tr
    unfold volumeLoop columnLoop
    split_ifs with h0 hm
    · rfl
    · cases hi : q.mInfo with
      | none => simp [volumeBody, hi]
      | some info =>
        cases he : info.elem with
        | none => simp [volumeBody, hi, he]
        | some e => simp [volumeBody, hi, he, ih, withVolume]
    · simp [ih]

theorem playbackMuteLoop_eq_columnLoop (drv : Driver) (device : Nat) (st : Bool) :
    ∀ (tbl : List alsa_properties_t) (tr : List HwWrite),
      playbackMuteLoop drv device st tbl tr =
        columnLoop device (playbackMuteBody drv st) tbl tr := by
  intro tbl
  induction tbl with
  | nil => intro tr; simp [playbackMuteLoop, columnLoop]
  | cons q qs ih =>
    intro tr
    unfold playbackMuteLoop columnLoop
    split_ifs with h0 hm
    · rfl
    · cases hi : q.mInfo with
      | none => simp [playbackMuteBody, hi]
      | some info =>
        cases he : info.elem with
        | none => simp [playbackMuteBody, hi, he]
        | some e =>
          by_cases hs : e.has_playback_switch = true
          · by_cases hd : drv tr (HwWrite.set_playback_switch_all e.id (switchValue st)) < 0
            · simp [playbackMuteBody, hi, he, hs, hd]
            · simp [playbackMuteBody, hi, he, hs, hd, ih, withMute]
          · simp [playbackMuteBody, hi, he, hs, ih, withMute]
    · simp [ih]

theorem captureMuteLoop_eq_columnLoop (drv : Driver) (device : Nat) (st : Bool) :
    ∀ (tbl : List alsa_properties_t) (tr : List HwWrite),
      captureMuteLoop drv device st tbl tr =
        columnLoop device (captureMuteBody drv st) tbl tr := by
  intro tbl
  induction tbl with
  | nil => intro tr; simp [captureMuteLoop, columnLoop]
  | cons q qs ih =>
    intro tr
    unfold captureMuteLoop columnLoop
    by_cases h0 : q.device = 0
    · simp [h0]
    · by_cases hm : q.device &&& device = 0
      · simp [h0, hm, ih]
      · cases hi : q.mInfo with
        | none => simp [h0, hm, captureMuteBody, hi]
        | some info =>
          cases he : info.elem with
          | none => simp [h0, hm, captureMuteBody, hi, he]
          | some e =>
            by_cases hs : e.has_capture_switch = true
            · by_cases hd : drv tr (HwWrite.set_capture_switch_all e.id (switchValue st)) < 0
              · simp [h0, hm, captureMuteBody, hi, he, hs, hd]
              · simp [h0, hm, captureMuteBody, hi, he, hs, hd, ih, withMute]
            · by_cases hv : e.has_capture_volume = true
              · simp [h0, hm, captureMuteBody, hi, he, hs, hv, ih, withMute]
              · simp [h0, hm, captureMuteBody, hi, he, hs, hv]

/-! ## Properties of the common skeleton -/

/-- Entries processed without an early return are followed by the rest of the column as if
the loop had started there with the writes made so far. -/
theorem columnLoop_append (device : Nat)
    (body : alsa_properties_t → List HwWrite → Option alsa_properties_t × List HwWrite) :
    ∀ (pre rest : List alsa_properties_t) (tr : List HwWrite),
      (∀ q, q ∈ pre → q.device ≠ 0) →
      (columnLoop device body pre tr).status = NO_ERROR →
      columnLoop device body (pre ++ rest) tr =
        ⟨(columnLoop device body rest (columnLoop device body pre tr).writes).status,
          (columnLoop device body pre tr).state ++
            (columnLoop device body rest (columnLoop device body pre tr).writes).state,
          (columnLoop device body rest (columnLoop device body pre tr).writes).writes⟩ := by
  intro pre
  induction pre with
  | nil => intro rest tr _ _; simp [columnLoop]
  | cons q qs ih =>
    intro rest tr hdev hst
    have h0 : q.device ≠ 0 := hdev q (by simp)
    have hdev2 : ∀ r, r ∈ qs → r.device ≠ 0 := fun r hr => hdev r (by simp [hr])
    by_cases hm : q.device &&& device = 0
    · have hst2 : (columnLoop device body qs tr).status = NO_ERROR := by
        simpa [columnLoop, h0, hm] using hst
      simp [columnLoop, h0, hm, ih rest tr hdev2 hst2]
    · rcases hb : body q tr with ⟨r, tr1⟩
      cases r with
      | none =>
        simp [columnLoop, h0, hm, hb, INVALID_OPERATION, NO_ERROR] at hst
      | some q1 =>
        have hst2 : (columnLoop device body qs tr1).status = NO_ERROR := by
          simpa [columnLoop, h0, hm, hb] using hst
        simp [columnLoop, h0, hm, hb, ih rest tr1 hdev2 hst2]

/-- A body that keeps the recorded volume of the entry keeps the recorded volumes of the
whole column, whatever the loop returns. -/
theorem columnLoop_recordedVolume (device : Nat)
    (body : alsa_properties_t → List HwWrite → Option alsa_properties_t × List HwWrite)
    (hbody : ∀ q tr q1 tr1, body q tr = (some q1, tr1) → recordedVolume q1 = recordedVolume q) :
    ∀ (tbl : List alsa_properties_t) (tr : List HwWrite),
      (columnLoop device body tbl tr).state.map recordedVolume = tbl.map recordedVolume := by
  intro tbl
  induction tbl with
  | nil => intro tr; simp [columnLoop]
  | cons q qs ih =>
    intro tr
    by_cases h0 : q.device = 0
    · simp [columnLoop, h0]
    · by_cases hm : q.device &&& device = 0
      · simp [columnLoop, h0, hm, ih tr]
      · rcases hb : body q tr with ⟨r, tr1⟩
        cases r with
        | none => simp [columnLoop, h0, hm, hb]
        | some q1 => simp [columnLoop, h0, hm, hb, ih tr1, hbody q tr q1 tr1 hb]

/-- After a loop that returned `NO_ERROR` and whose body leaves a matched entry with its
device class, a control and the mute flag `st`, the getter loop finds `st` at the first
matched entry. -/
theorem columnLoop_then_getMute (device : Nat) (st old : Bool)
    (body : alsa_properties_t → List HwWrite → Option alsa_properties_t × List HwWrite)
    (hbody : ∀ q tr q1 tr1, body q tr = (some q1, tr1) →
      q1.device = q.device ∧ ∃ info e, q1.mInfo = some info ∧ info.elem = some e ∧
        info.mute = st) :
    ∀ (tbl : List alsa_properties_t) (tr : List HwWrite) (j : Nat) (p : alsa_properties_t),
      FirstMatched device tbl j p → (columnLoop device body tbl tr).status = NO_ERROR →
      getMuteLoop device old (columnLoop device body tbl tr).state = (NO_ERROR, st) := by
  intro tbl
  induction tbl with
  | nil => intro tr j p hf; simp [FirstMatched] at hf
  | cons q qs ih =>
    intro tr j p hf hst
    obtain ⟨hj, hm, hpre⟩ := hf
    cases j with
    | zero =>
      simp at hj
      subst hj
      have h0 := matched_device_ne_zero device q hm
      have hm2 : ¬ (q.device &&& device = 0) := hm
      rcases hb : body q tr with ⟨r, tr1⟩
      cases r with
      | none => simp [columnLoop, h0, hm2, hb, INVALID_OPERATION, NO_ERROR] at hst
      | some q1 =>
        obtain ⟨hd, info, e, hi, he, hmu⟩ := hbody q tr q1 tr1 hb
        simp [columnLoop, h0, hm2, hb, getMuteLoop, hd, hi, he, hmu]
    | succ k =>
      have hq := hpre 0 (by omega) q (by simp)
      have hm2 : q.device &&& device = 0 := by simpa [Matched] using hq.2
      have hf2 : FirstMatched device qs k p :=
        ⟨by simpa using hj, hm, fun i hi r hr => hpre (i + 1) (by omega) r (by simpa using hr)⟩
      have hst2 : (columnLoop device body qs tr).status = NO_ERROR := by
        simpa [columnLoop, hq.1, hm2] using hst
      simp [columnLoop, hq.1, hm2, getMuteLoop, ih tr k p hf2 hst2]

theorem playbackMuteBody_some (drv : Driver) (st : Bool) (q q1 : alsa_properties_t)
    (tr tr1 : List HwWrite) (h : playbackMuteBody drv st q tr = (some q1, tr1)) :
    ∃ info e, q.mInfo = some info ∧ info.elem = some e ∧ q1 = withMute q info st := by
  unfold playbackMuteBody at h
  cases hi : q.mInfo with
  | none => simp [hi] at h
  | some info =>
    cases he : info.elem with
    | none => simp [hi, he] at h
    | some e =>
      refine ⟨info, e, rfl, he, ?_⟩
      simp only [hi, he] at h
      split_ifs at h <;> simp at h <;> exact h.1.symm

theorem captureMuteBody_some (drv : Driver) (st : Bool) (q q1 : alsa_properties_t)
    (tr tr1 : List HwWrite) (h : captureMuteBody drv st q tr = (some q1, tr1)) :
    ∃ info e, q.mInfo = some info ∧ info.elem = some e ∧ q1 = withMute q info st := by
  unfold captureMuteBody at h
  cases hi : q.mInfo with
  | none => simp [hi] at h
  | some info =>
    cases he : info.elem with
    | none => simp [hi, he] at h
    | some e =>
      refine ⟨info, e, rfl, he, ?_⟩
      simp only [hi, he] at h
      by_cases hs : e.has_capture_switch = true
      · by_cases hd : drv tr (HwWrite.set_capture_switch_all e.id (switchValue st)) < 0
        · simp [hs, hd] at h
        · simp [hs, hd] at h
          exact h.1.symm
      · by_cases hv : e.has_capture_volume = true
        · simp [hs, hv] at h
          exact h.1.symm
        · simp [hs, hv] at h

theorem withMute_facts (q : alsa_properties_t) (info : mixer_info_t) (e : snd_mixer_elem_t)
    (st : Bool) (hi : q.mInfo = some info) (he : info.elem = some e) :
    (withMute q info st).device = q.device ∧
      (∃ i2 e2, (withMute q info st).mInfo = some i2 ∧ i2.elem = some e2 ∧ i2.mute = st) ∧
      recordedVolume (withMute q info st) = recordedVolume q :=
  ⟨rfl, ⟨{ info with mute := st }, e, rfl, he, rfl⟩, by simp [recordedVolume, withMute, hi]⟩

/-- A mask that matches some registered entry has a first matched entry. -/
theorem exists_firstMatched (device : Nat) :
    ∀ (tbl : List alsa_properties_t),
      (∃ j p, Registered tbl j ∧ tbl[j]? = some p ∧ Matched device p) →
      ∃ j p, FirstMatched device tbl j p := by
  intro tbl
  induction tbl with
  | nil => rintro ⟨j, p, _, hp, _⟩; simp at hp
  | cons q qs ih =>
    rintro ⟨j, p, hj, hp, hm⟩
    by_cases hq : Matched device q
    · exact ⟨0, q, by simp, hq, fun k hk => absurd hk (by omega)⟩
    · cases j with
      | zero =>
        simp at hp
        subst hp
        exact absurd hm hq
      | succ k =>
        have h0 : q.device ≠ 0 := hj.2 0 (by omega) q (by simp)
        have hk : Registered qs k :=
          ⟨by simpa using hj.1, fun i hi r hr => hj.2 (i + 1) (by omega) r (by simpa using hr)⟩
        obtain ⟨j2, p2, hp2, hm2, hpre2⟩ := ih ⟨k, p, hk, by simpa using hp, hm⟩
        refine ⟨j2 + 1, p2, by simpa using hp2, hm2, ?_⟩
        intro i hi r hr
        cases i with
        | zero =>
          simp at hr
          subst hr
          exact ⟨h0, hq⟩
        | succ i2 => exact hpre2 i2 (by omega) r (by simpa using hr)

/-! ## C8: the mute flag read back -/

/-- C8: for a mask that matches at least one registered binding and every boolean `s`,
when `setPlaybackMuteState(mask, s)` returns `NO_ERROR` (which requires every matched
binding to be bound), `getPlaybackMuteState(mask)` on the resulting tables returns
`NO_ERROR` and stores `s`; the same holds of `setCaptureMuteState` and
`getCaptureMuteState`.  The statement covers a control with a switch and a control
without one alike. -/
theorem getMute_after_setMute (drv : Driver) (m : ALSAMixer) (device : Nat) (s : Bool) :
    ((∃ j p, Registered m.playback j ∧ m.playback[j]? = some p ∧ Matched device p) →
      (m.setPlaybackMuteState drv device s).status = NO_ERROR →
      ∀ old, (m.setPlaybackMuteState drv device s).state.getPlaybackMuteState device (some old) =
        (NO_ERROR, some s)) ∧
    ((∃ j p, Registered m.capture j ∧ m.capture[j]? = some p ∧ Matched device p) →
      (m.setCaptureMuteState drv device s).status = NO_ERROR →
      ∀ old, (m.setCaptureMuteState drv device s).state.getCaptureMuteState device (some old) =
        (NO_ERROR, some s)) := by
  constructor
  · intro hex hst old
    obtain ⟨j, p, hf⟩ := exists_firstMatched device m.playback hex
    have hst2 : (columnLoop device (playbackMuteBody drv s) m.playback []).status = NO_ERROR := by
      simpa [ALSAMixer.setPlaybackMuteState, playbackMuteLoop_eq_columnLoop] using hst
    have h := columnLoop_then_getMute device s old (playbackMuteBody drv s)
      (fun q tr q1 tr1 hb => by
        obtain ⟨info, e, hi, he, hq1⟩ := playbackMuteBody_some drv s q q1 tr tr1 hb
        subst hq1
        exact ⟨(withMute_facts q info e s hi he).1, (withMute_facts q info e s hi he).2.1⟩)
      m.playback [] j p hf hst2
    simp only [ALSAMixer.setPlaybackMuteState, ALSAMixer.getPlaybackMuteState,
      playbackMuteLoop_eq_columnLoop, h]
  · intro hex hst old
    obtain ⟨j, p, hf⟩ := exists_firstMatched device m.capture hex
    have hst2 : (columnLoop device (captureMuteBody drv s) m.capture []).status = NO_ERROR := by
      simpa [ALSAMixer.setCaptureMuteState, captureMuteLoop_eq_columnLoop] using hst
    have h := columnLoop_then_getMute device s old (captureMuteBody drv s)
      (fun q tr q1 tr1 hb => by
        obtain ⟨info, e, hi, he, hq1⟩ := captureMuteBody_some drv s q q1 tr tr1 hb
        subst hq1
        exact ⟨(withMute_facts q info e s hi he).1, (withMute_facts q info e s hi he).2.1⟩)
      m.capture [] j p hf hst2
    simp only [ALSAMixer.setCaptureMuteState, ALSAMixer.getCaptureMuteState,
      captureMuteLoop_eq_columnLoop, h]

/-- Witness of C8: on the demo mixer the mask `2` matches the capture entry whose control
has a volume and no switch, and the playback entry whose control has a switch; muting
returns `NO_ERROR` and the flag reads back as set, in both directions. -/
theorem getMute_after_setMute_witness :
    (∃ j p, Registered demoMixer.capture j ∧ demoMixer.capture[j]? = some p ∧ Matched 2 p) ∧
    (demoMixer.setCaptureMuteState okDriver 2 true).status = NO_ERROR ∧
    (∀ old, (demoMixer.setCaptureMuteState okDriver 2 true).state.getCaptureMuteState 2
      (some old) = (NO_ERROR, some true)) ∧
    (∀ old, (demoMixer.setPlaybackMuteState okDriver 2 true).state.getPlaybackMuteState 2
      (some old) = (NO_ERROR, some true)) := by
  have hreg : ∀ tbl : List alsa_properties_t, (∀ q, tbl[0]? = some q → q.device ≠ 0) →
      (∀ q, tbl[1]? = some q → q.device ≠ 0) → 1 < tbl.length → Registered tbl 1 := by
    intro tbl h0 h1 hl
    refine ⟨hl, ?_⟩
    intro k hk q hq
    have hk2 : k = 0 ∨ k = 1 := by omega
    rcases hk2 with hk2 | hk2
    · subst hk2; exact h0 q hq
    · subst hk2; exact h1 q hq
  have hc : ∃ j p, Registered demoMixer.capture j ∧ demoMixer.capture[j]? = some p ∧
      Matched 2 p :=
    ⟨1, ⟨2, some micInfo⟩,
      hreg _ (by intro q hq; simp [demoMixer] at hq; subst hq; decide)
        (by intro q hq; simp [demoMixer] at hq; subst hq; decide) (by decide),
      rfl, by unfold Matched; decide⟩
  have hp : ∃ j p, Registered demoMixer.playback j ∧ demoMixer.playback[j]? = some p ∧
      Matched 2 p :=
    ⟨1, ⟨2, some pcmInfo⟩,
      hreg _ (by intro q hq; simp [demoMixer] at hq; subst hq; decide)
        (by intro q hq; simp [demoMixer] at hq; subst hq; decide) (by decide),
      rfl, by unfold Matched; decide⟩
  exact ⟨hc, by decide,
    (getMute_after_setMute okDriver demoMixer 2 true).2 hc (by decide),
    (getMute_after_setMute okDriver demoMixer 2 true).1 hp (by decide)⟩

/-! ## C9: a hardware write that fails -/

/-- The lock state of a stream: the flag and the two call counts. -/
theorem lock_state_emit (s : AudioStreamOutALSA) (e : Event)
    (h1 : e ≠ Event.acquire_wake_lock) (h2 : e ≠ Event.release_wake_lock) :
    (s.emit e).mPowerLock = s.mPowerLock ∧ acquires (s.emit e).log = acquires s.log ∧
      releases (s.emit e).log = releases s.log := by
  refine ⟨rfl, ?_, ?_⟩
  · simp [AudioStreamOutALSA.emit, acquires, List.count_append, List.count_singleton, h1]
  · simp [AudioStreamOutALSA.emit, releases, List.count_append, List.count_singleton, h2]

theorem lock_state_reopen (env : Transport) (s : AudioStreamOutALSA) :
    (s.reopen env).mPowerLock = s.mPowerLock ∧ acquires (s.reopen env).log = acquires s.log ∧
      releases (s.reopen env).log = releases s.log := by
  refine ⟨rfl, ?_, ?_⟩
  · simp [AudioStreamOutALSA.reopen, acquires, List.count_append, List.count_singleton]
  · simp [AudioStreamOutALSA.reopen, releases, List.count_append, List.count_singleton]

theorem lock_state_notifyRecover (env : Transport) (s : AudioStreamOutALSA) (n : Int) :
    (s.notifyRecover env n).mPowerLock = s.mPowerLock ∧
      acquires (s.notifyRecover env n).log = acquires s.log ∧
      releases (s.notifyRecover env n).log = releases s.log := by
  unfold AudioStreamOutALSA.notifyRecover
  split
  · exact lock_state_emit s _ (by simp) (by simp)
  · exact ⟨rfl, rfl, rfl⟩

theorem lock_state_writeBody (env : Transport) (bytes : Nat) (s : AudioStreamOutALSA)
    (sent : Nat) :
    (AudioStreamOutALSA.writeBody env bytes s sent).2.1.mPowerLock = s.mPowerLock ∧
      acquires (AudioStreamOutALSA.writeBody env bytes s sent).2.1.log = acquires s.log ∧
      releases (AudioStreamOutALSA.writeBody env bytes s sent).2.1.log = releases s.log := by
  unfold AudioStreamOutALSA.writeBody
  simp only
  cases ha : env.aDevRecover <;> split_ifs <;>
    simp [AudioStreamOutALSA.notifyRecover, ha, AudioStreamOutALSA.reopen,
      AudioStreamOutALSA.emit, acquires, releases, List.count_append, List.count_singleton]

theorem lock_state_writeLoop (env : Transport) (bytes : Nat) :
    ∀ (fuel : Nat) (s : AudioStreamOutALSA) (sent : Nat),
      (AudioStreamOutALSA.writeLoop env bytes fuel s sent).2.1.mPowerLock = s.mPowerLock ∧
        acquires (AudioStreamOutALSA.writeLoop env bytes fuel s sent).2.1.log = acquires s.log ∧
        releases (AudioStreamOutALSA.writeLoop env bytes fuel s sent).2.1.log =
          releases s.log := by
  intro fuel
  induction fuel with
  | zero => intro s sent; exact ⟨rfl, rfl, rfl⟩
  | succ n ih =>
    intro s sent
    have hb := lock_state_writeBody env bytes s sent
    rw [writeLoop_succ]
    rcases hbody : AudioStreamOutALSA.writeBody env bytes s sent with ⟨r, s1, sent1⟩
    rw [hbody] at hb
    cases r with
    | some r => exact hb
    | none =>
      simp only
      split_ifs
      · have h2 := ih s1 sent1
        exact ⟨h2.1.trans hb.1, h2.2.1.trans hb.2.1, h2.2.2.trans hb.2.2⟩
      · exact hb

theorem writeBegin_lock (env : Transport) (s : AudioStreamOutALSA) (bytes : Nat)
    (h : WakeBalanced s) :
    (s.writeBegin env bytes).mPowerLock = true ∧ WakeBalanced (s.writeBegin env bytes) := by
  unfold WakeBalanced at h ⊢
  unfold AudioStreamOutALSA.writeBegin
  cases hl : s.mPowerLock <;> cases hh : s.mHandle.handle <;> cases ha : env.aDevWrite <;>
    simp [hl, hh, ha, AudioStreamOutALSA.reopen, AudioStreamOutALSA.emit, acquires, releases,
      List.count_append, List.count_singleton] at h ⊢ <;> omega

theorem write_lock (env : Transport) (fuel : Nat) (s : AudioStreamOutALSA) (bytes : Nat)
    (h : WakeBalanced s) :
    (s.write env fuel bytes).2.mPowerLock = true ∧ WakeBalanced (s.write env fuel bytes).2 := by
  have hb := writeBegin_lock env s bytes h
  have hl := lock_state_writeLoop env bytes fuel (s.writeBegin env bytes) 0
  unfold WakeBalanced at hb ⊢
  simp only [AudioStreamOutALSA.write, hl.1, hl.2.1, hl.2.2]
  exact hb

theorem releaseLock_lock (s : AudioStreamOutALSA) (h : WakeBalanced s) :
    s.releaseLock.mPowerLock = false ∧ WakeBalanced s.releaseLock := by
  unfold WakeBalanced at h ⊢
  unfold AudioStreamOutALSA.releaseLock
  cases hl : s.mPowerLock <;>
    simp [hl, AudioStreamOutALSA.emit, acquires, releases, List.count_append,
      List.count_singleton] at h ⊢ <;> omega

theorem standby_lock (s : AudioStreamOutALSA) (h : WakeBalanced s) :
    s.standby.2.mPowerLock = false ∧ WakeBalanced s.standby.2 := by
  apply releaseLock_lock
  unfold WakeBalanced at h ⊢
  simpa [AudioStreamOutALSA.module_close, AudioStreamOutALSA.emit, acquires, releases,
    List.count_append, List.count_singleton] using h

theorem close_lock (s : AudioStreamOutALSA) (h : WakeBalanced s) :
    s.close.2.mPowerLock = false ∧ WakeBalanced s.close.2 := by
  apply releaseLock_lock
  unfold WakeBalanced at h ⊢
  simpa [AudioStreamOutALSA.ALSAStreamOps_close, AudioStreamOutALSA.emit, acquires, releases,
    List.count_append, List.count_singleton] using h

theorem call_lock (env : Transport) (s s1 : AudioStreamOutALSA) (c : Call)
    (h : WakeBalanced s) (hc : s.call env c = some s1) :
    WakeBalanced s1 ∧
      ((∃ bytes fuel, c = Call.write bytes fuel) → s1.mPowerLock = true) ∧
      (c = Call.standby ∨ c = Call.close → s1.mPowerLock = false) := by
  cases c with
  | write bytes fuel =>
    have hw := write_lock env fuel s bytes h
    simp only [AudioStreamOutALSA.call] at hc
    rcases hres : AudioStreamOutALSA.write env fuel s bytes with ⟨r, s2⟩
    rw [hres] at hc hw
    cases r with
    | none => simp at hc
    | some r =>
      simp at hc
      subst hc
      exact ⟨hw.2, fun _ => hw.1, fun hx => by rcases hx with hx | hx <;> cases hx⟩
  | standby =>
    simp [AudioStreamOutALSA.call] at hc
    subst hc
    refine ⟨(standby_lock s h).2, ?_, fun _ => (standby_lock s h).1⟩
    rintro ⟨_, _, hx⟩
    cases hx
  | close =>
    simp [AudioStreamOutALSA.call] at hc
    subst hc
    refine ⟨(close_lock s h).2, ?_, fun _ => (close_lock s h).1⟩
    rintro ⟨_, _, hx⟩
    cases hx

theorem run_snoc (env : Transport) :
    ∀ (cs : List Call) (s : AudioStreamOutALSA) (c : Call),
      AudioStreamOutALSA.run env s (cs ++ [c]) =
        match AudioStreamOutALSA.run env s cs with
        | some s1 => s1.call env c
        | none => none := by
  intro cs
  induction cs with
  | nil =>
    intro s c
    simp only [List.nil_append, AudioStreamOutALSA.run]
    cases s.call env c <;> rfl
  | cons d ds ih =>
    intro s c
    simp only [List.cons_append, AudioStreamOutALSA.run]
    cases s.call env d with
    | none => rfl
    | some s1 => exact ih s1 c

theorem run_balanced (env : Transport) :
    ∀ (cs : List Call) (s0 s : AudioStreamOutALSA), WakeBalanced s0 →
      AudioStreamOutALSA.run env s0 cs = some s → WakeBalanced s := by
  intro cs
  induction cs with
  | nil =>
    intro s0 s h hr
    simp [AudioStreamOutALSA.run] at hr
    subst hr
    exact h
  | cons d ds ih =>
    intro s0 s h hr
    simp only [AudioStreamOutALSA.run] at hr
    cases hc : s0.call env d with
    | none => simp [hc] at hr
    | some s1 =>
      rw [hc] at hr
      exact ih s1 s (call_lock env s0 s1 d h hc).1 hr

theorem run_last (env : Transport) (cs : List Call) (c : Call) (s0 s : AudioStreamOutALSA)
    (h : WakeBalanced s0) (hr : AudioStreamOutALSA.run env s0 (cs ++ [c]) = some s) :
    ((∃ bytes fuel, c = Call.write bytes fuel) → s.mPowerLock = true) ∧
      (c = Call.standby ∨ c = Call.close → s.mPowerLock = false) := by
  rw [run_snoc] at hr
  cases hm : AudioStreamOutALSA.run env s0 cs with
  | none => simp [hm] at hr
  | some s1 =>
    rw [hm] at hr
    exact (call_lock env s1 s c (run_balanced env cs s0 s1 h hm) hr).2

/-- C10: start from a stream whose wake lock is not held and whose log has as many
`acquire_wake_lock` as `release_wake_lock` calls, and let any sequence of `write`,
`standby` and `close` calls return, on any transport.  In the state reached, the
`acquire_wake_lock` calls minus the `release_wake_lock` calls are 1 when `mPowerLock` is set
and 0 otherwise; `mPowerLock` is set when the last call was a `write` (whatever value it
returned, error codes included), and clear when it was a `standby` or a `close`. -/
theorem wake_lock_calls_balanced (env : Transport) (s0 s : AudioStreamOutALSA)
    (calls : List Call)
    (hfresh : s0.mPowerLock = false) (hcount : acquires s0.log = releases s0.log)
    (hrun : AudioStreamOutALSA.run env s0 calls = some s) :
    ((acquires s.log : Int) - (releases s.log : Int) = if s.mPowerLock then 1 else 0) ∧
    (∀ cs bytes fuel, calls = cs ++ [Call.write bytes fuel] → s.mPowerLock = true) ∧
    (∀ cs, calls = cs ++ [Call.standby] → s.mPowerLock = false) ∧
    (∀ cs, calls = cs ++ [Call.close] → s.mPowerLock = false) := by
  have h0 : WakeBalanced s0 := by
    unfold WakeBalanced
    simp [hfresh, hcount]
  refine ⟨run_balanced env calls s0 s h0 hrun, ?_, ?_, ?_⟩
  · intro cs bytes fuel hc
    subst hc
    exact (run_last env cs _ s0 s h0 hrun).1 ⟨bytes, fuel, rfl⟩
  · intro cs hc
    subst hc
    exact (run_last env cs _ s0 s h0 hrun).2 (Or.inl rfl)
  · intro cs hc
    subst hc
    exact (run_last env cs _ s0 s h0 hrun).2 (Or.inr rfl)

/-- Witness of C10: a fresh stream writes 8 bytes to the transport that is gone after one
frame, and `write` returns `-EBADFD`; the lock is held and one `acquire_wake_lock` is
outstanding.  After a following `standby` the lock is released and the calls are even. -/
theorem wake_lock_calls_balanced_witness :
    (freshStream.write goneTransport 2 8).1 = some (-EBADFD) ∧
    ((acquires (freshStream.write goneTransport 2 8).2.log : Int) -
        (releases (freshStream.write goneTransport 2 8).2.log : Int) =
      if (freshStream.write goneTransport 2 8).2.mPowerLock then 1 else 0) ∧
    (freshStream.write goneTransport 2 8).2.mPowerLock = true ∧
    (freshStream.write goneTransport 2 8).2.standby.2.mPowerLock = false ∧
    ((acquires (freshStream.write goneTransport 2 8).2.standby.2.log : Int) -
        (releases (freshStream.write goneTransport 2 8).2.standby.2.log : Int) =
      if (freshStream.write goneTransport 2 8).2.standby.2.mPowerLock then 1 else 0) :=
  have h1 := wake_lock_calls_balanced goneTransport freshStream
    (freshStream.write goneTransport 2 8).2 [Call.write 8 2] rfl rfl (by decide)
  have h2 := wake_lock_calls_balanced goneTransport freshStream
    (freshStream.write goneTransport 2 8).2.standby.2 [Call.write 8 2, Call.standby] rfl rfl
    (by decide)
  ⟨by decide, h1.1, h1.2.1 [] 8 2 rfl, h2.2.2.1 [Call.write 8 2] rfl, h2.1⟩

/-! ## C11: every matched binding, in registration order -/

/-- An entry the mask does not intersect is left exactly as it was, whatever the loop
returns. -/
theorem columnLoop_unmatched (device : Nat)
    (body : alsa_properties_t → List HwWrite → Option alsa_properties_t × List HwWrite) :
    ∀ (tbl : List alsa_properties_t) (tr : List HwWrite) (j : Nat) (p : alsa_properties_t),
      tbl[j]? = some p → ¬ Matched device p →
      (columnLoop device body tbl tr).state[j]? = some p := by
  intro tbl
  induction tbl with
  | nil => intro tr j p hj; simp at hj
  | cons q qs ih =>
    intro tr j p hj hm
    by_cases h0 : q.device = 0
    · simpa [columnLoop, h0] using hj
    · by_cases hq : q.device &&& device = 0
      · cases j with
        | zero => simpa [columnLoop, h0, hq] using hj
        | succ k =>
          have := ih tr k p (by simpa using hj) hm
          simpa [columnLoop, h0, hq] using this
      · rcases hb : body q tr with ⟨r, tr1⟩
        cases r with
        | none => simpa [columnLoop, h0, hq, hb] using hj
        | some q1 =>
          cases j with
          | zero =>
            simp at hj
            subst hj
            exact absurd hq hm
          | succ k =>
            have := ih tr1 k p (by simpa using hj) hm
            simpa [columnLoop, h0, hq, hb] using this

/-- A body that keeps a projection of the entry keeps that projection of the whole
column, whatever the loop returns. -/
theorem columnLoop_map_eq {α : Type} (f : alsa_properties_t → α) (device : Nat)
    (body : alsa_properties_t → List HwWrite → Option alsa_properties_t × List HwWrite)
    (hbody : ∀ q tr q1 tr1, body q tr = (some q1, tr1) → f q1 = f q) :
    ∀ (tbl : List alsa_properties_t) (tr : List HwWrite),
      (columnLoop device body tbl tr).state.map f = tbl.map f := by
  intro tbl
  induction tbl with
  | nil => intro tr; simp [columnLoop]
  | cons q qs ih =>
    intro tr
    by_cases h0 : q.device = 0
    · simp [columnLoop, h0]
    · by_cases hm : q.device &&& device = 0
      · simp [columnLoop, h0, hm, ih tr]
      · rcases hb : body q tr with ⟨r, tr1⟩
        cases r with
        | none => simp [columnLoop, h0, hm, hb]
        | some q1 => simp [columnLoop, h0, hm, hb, ih tr1, hbody q tr q1 tr1 hb]

theorem volumeBody_some (pf : Machine) (mk : Nat → Int → HwWrite) (v : float) (q q1 : alsa_properties_t)
    (tr tr1 : List HwWrite) (h : volumeBody pf mk v q tr = (some q1, tr1)) :
    ∃ info e, q.mInfo = some info ∧ info.elem = some e ∧
      q1 = withVolume q info (boundedVolume pf info.min info.max v) ∧
      tr1 = tr ++ [mk e.id (boundedVolume pf info.min info.max v)] := by
  unfold volumeBody at h
  cases hi : q.mInfo with
  | none => simp [hi] at h
  | some info =>
    cases he : info.elem with
    | none => simp [hi, he] at h
    | some e =>
      simp [hi, he] at h
      exact ⟨info, e, rfl, he, h.1.symm, h.2.symm⟩

/-- When the volume loop returns `NO_ERROR`, the writes it made are those of the matched
registered entries, one each, in registration order. -/
theorem volume_columnLoop_writes (pf : Machine) (mk : Nat → Int → HwWrite) (device : Nat) (v : float) :
    ∀ (tbl : List alsa_properties_t) (tr : List HwWrite),
      (columnLoop device (volumeBody pf mk v) tbl tr).status = NO_ERROR →
      (columnLoop device (volumeBody pf mk v) tbl tr).writes =
        tr ++ ((registeredEntries tbl).filter
          (fun p => decide (p.device &&& device ≠ 0))).filterMap (volumeWriteOf pf mk v) := by
  intro tbl
  induction tbl with
  | nil => intro tr _; simp [columnLoop, registeredEntries]
  | cons q qs ih =>
    intro tr hst
    by_cases h0 : q.device = 0
    · simp [columnLoop, registeredEntries, h0]
    · by_cases hm : q.device &&& device = 0
      · have hst2 : (columnLoop device (volumeBody pf mk v) qs tr).status = NO_ERROR := by
          simpa [columnLoop, h0, hm] using hst
        have := ih tr hst2
        simp only [registeredEntries] at this
        simp [columnLoop, registeredEntries, h0, hm, this]
      · rcases hb : volumeBody pf mk v q tr with ⟨r, tr1⟩
        cases r with
        | none => simp [columnLoop, h0, hm, hb, INVALID_OPERATION, NO_ERROR] at hst
        | some q1 =>
          obtain ⟨info, e, hi, he, _, htr⟩ := volumeBody_some pf mk v q q1 tr tr1 hb
          subst htr
          have hst2 : (columnLoop device (volumeBody pf mk v) qs
              (tr ++ [mk e.id (boundedVolume pf info.min info.max v)])).status = NO_ERROR := by
            simpa [columnLoop, h0, hm, hb] using hst
          have := ih _ hst2
          simp only [registeredEntries] at this
          simp [columnLoop, registeredEntries, h0, hm, hb, this, volumeWriteOf, hi, he]

/-- C11: for playback, when every matched registered binding is bound,
`setVolume(mask, left, right)` returns `NO_ERROR` and records in every registered binding
whose device class intersects the mask (not only the first) the volume mapped from `left`
over that binding's own range; the hardware writes are those of the matched bindings, one
each, in registration order; every entry the mask does not intersect is exactly as before,
every mute flag is as before, and the masters and the capture column are untouched; the
outcome is the same for every value of `right`; and two matched bindings with equal ranges
end at the same native volume. -/
theorem setVolume_updates_every_matched_binding (pf : Machine) (drv : Driver)
    (m : ALSAMixer) (device : Nat) (left right : float)
    (hall : ∀ j q, Registered m.playback j → m.playback[j]? = some q → Matched device q →
      Bound q) :
    (m.setVolume pf drv device left right).status = NO_ERROR ∧
    (∀ (j : Nat) p info, Registered m.playback j → m.playback[j]? = some p →
      Matched device p → p.mInfo = some info →
      (m.setVolume pf drv device left right).state.playback[j]? =
        some (withVolume p info (boundedVolume pf info.min info.max left))) ∧
    (∀ (j : Nat) p, m.playback[j]? = some p → ¬ Matched device p →
      (m.setVolume pf drv device left right).state.playback[j]? = some p) ∧
    (m.setVolume pf drv device left right).state.playback.map recordedMute =
      m.playback.map recordedMute ∧
    ((m.setVolume pf drv device left right).state.masterPlayback = m.masterPlayback ∧
      (m.setVolume pf drv device left right).state.masterCapture = m.masterCapture ∧
      (m.setVolume pf drv device left right).state.capture = m.capture) ∧
    (m.setVolume pf drv device left right).writes =
      ((registeredEntries m.playback).filter
        (fun p => decide (p.device &&& device ≠ 0))).filterMap
          (volumeWriteOf pf HwWrite.set_playback_volume_all left) ∧
    (∀ right2, m.setVolume pf drv device left right2 = m.setVolume pf drv device left right) ∧
    (∀ (j1 j2 : Nat) p1 p2 i1 i2, Registered m.playback j1 → Registered m.playback j2 →
      m.playback[j1]? = some p1 → m.playback[j2]? = some p2 →
      Matched device p1 → Matched device p2 → p1.mInfo = some i1 → p2.mInfo = some i2 →
      i1.min = i2.min → i1.max = i2.max →
      ((m.setVolume pf drv device left right).state.playback[j1]?).bind recordedVolume =
          some (boundedVolume pf i1.min i1.max left) ∧
        ((m.setVolume pf drv device left right).state.playback[j2]?).bind recordedVolume =
          some (boundedVolume pf i1.min i1.max left)) := by
  have hst := volumeLoop_status pf drv HwWrite.set_playback_volume_all device left m.playback []
    hall
  have hget : ∀ (j : Nat) p info, Registered m.playback j → m.playback[j]? = some p →
      Matched device p → p.mInfo = some info →
      (m.setVolume pf drv device left right).state.playback[j]? =
        some (withVolume p info (boundedVolume pf info.min info.max left)) := by
    intro j p info hj hp hm hi
    obtain ⟨info2, e, hi2, he⟩ := hall j p hj hp hm
    have hinfo : info2 = info := by
      rw [hi] at hi2
      exact (Option.some.inj hi2).symm
    subst hinfo
    have hpre : ∀ k, k < j → ∀ q, m.playback[k]? = some q →
        q.device ≠ 0 ∧ (Matched device q → Bound q) := fun k hk q hq =>
      ⟨hj.2 k (le_of_lt hk) q hq,
        hall k q (registered_before m.playback j k (le_of_lt hk) hj) hq⟩
    exact (volumeLoop_getElem pf drv HwWrite.set_playback_volume_all device left m.playback []
      j p info2 e hp hpre hm hi he).1
  refine ⟨hst, hget, ?_, ?_, ⟨rfl, rfl, rfl⟩, ?_, fun _ => rfl, ?_⟩
  · intro j p hp hm
    simp only [ALSAMixer.setVolume, volumeLoop_eq_columnLoop]
    exact columnLoop_unmatched device _ m.playback [] j p hp hm
  · simp only [ALSAMixer.setVolume, volumeLoop_eq_columnLoop]
    exact columnLoop_map_eq recordedMute device _ (fun q tr q1 tr1 h => by
      obtain ⟨info, e, hi, _, hq1, _⟩ := volumeBody_some pf _ left q q1 tr tr1 h
      subst hq1
      simp [recordedMute, withVolume, hi]) m.playback []
  · rw [volumeLoop_eq_columnLoop] at hst
    have := volume_columnLoop_writes pf HwWrite.set_playback_volume_all device left
      m.playback []
      hst
    simpa [ALSAMixer.setVolume, volumeLoop_eq_columnLoop] using this
  · intro j1 j2 p1 p2 i1 i2 hj1 hj2 hp1 hp2 hm1 hm2 hi1 hi2 hmin hmax
    rw [hget j1 p1 i1 hj1 hp1 hm1 hi1, hget j2 p2 i2 hj2 hp2 hm2 hi2, hmin, hmax]
    exact ⟨rfl, rfl⟩

/-- Witness of C11: on the demo mixer the mask `3` intersects both playback classes, `1`
and `2`, whose bindings share the range `[0, 87]`; `setVolume(3, 0.2f, 0.2f)`, the argument
being the single nearest to `0.2`, returns `NO_ERROR` and both bindings end at the same
native volume, 17. -/
theorem setVolume_updates_every_matched_binding_witness :
    (demoMixer.setVolume lp64 okDriver 3 (float.finite (13421773 / 67108864))
        (float.finite (13421773 / 67108864))).status = NO_ERROR ∧
    (demoMixer.setVolume lp64 okDriver 3 (float.finite (13421773 / 67108864))
        (float.finite (13421773 / 67108864))).state.playback[0]? =
      some (withVolume ⟨1, some pcmInfo⟩ pcmInfo
        (boundedVolume lp64 pcmInfo.min pcmInfo.max (float.finite (13421773 / 67108864)))) ∧
    (demoMixer.setVolume lp64 okDriver 3 (float.finite (13421773 / 67108864))
        (float.finite (13421773 / 67108864))).state.playback[1]? =
      some (withVolume ⟨2, some pcmInfo⟩ pcmInfo
        (boundedVolume lp64 pcmInfo.min pcmInfo.max (float.finite (13421773 / 67108864)))) ∧
    boundedVolume lp64 pcmInfo.min pcmInfo.max (float.finite (13421773 / 67108864)) = 17 := by
  have h := setVolume_updates_every_matched_binding lp64 okDriver demoMixer 3
    (float.finite (13421773 / 67108864)) (float.finite (13421773 / 67108864))
    (demo_matched_bound_playback 3)
  have h0 : Registered demoMixer.playback 0 :=
    registered_before demoMixer.playback 1 0 (by decide) demo_registered_one_playback
  exact ⟨h.1, h.2.1 0 ⟨1, some pcmInfo⟩ pcmInfo h0 rfl (by unfold Matched; decide) rfl,
    h.2.1 1 ⟨2, some pcmInfo⟩ pcmInfo demo_registered_one_playback rfl
      (by unfold Matched; decide) rfl, boundedVolume_fifth lp64⟩

/-! ## C12: recovery attempts and termination of one write -/

/-- C13 at the failing input: the playback binding of class `2` is bound to a control with
a volume and no switch, at recorded volume 60.  `setPlaybackMuteState(2, true)` returns
`NO_ERROR` and records the mute flag but writes nothing to the hardware, and the following
`setPlaybackMuteState(2, false)` writes nothing either, where the claim has volume 0 and then
volume 60 written.  The capture sibling on a control of the same kind (recorded volume 3)
does write volume 0 on mute and the recorded volume on unmute, and neither direction changes
the recorded volume. -/
theorem playback_mute_without_switch_writes_nothing :
    ((switchlessMixer.setPlaybackMuteState okDriver 2 true).status = NO_ERROR ∧
      (switchlessMixer.setPlaybackMuteState okDriver 2 true).writes = [] ∧
      (switchlessMixer.setPlaybackMuteState okDriver 2 true).state.playback.map recordedMute =
        [some true, none] ∧
      (switchlessMixer.setPlaybackMuteState okDriver 2 true).state.playback.map recordedVolume =
        [some 60, none] ∧
      ((switchlessMixer.setPlaybackMuteState okDriver 2 true).state.setPlaybackMuteState
        okDriver 2 false).writes = []) ∧
    ((switchlessMixer.setCaptureMuteState okDriver 2 true).status = NO_ERROR ∧
      (switchlessMixer.setCaptureMuteState okDriver 2 true).writes =
        [HwWrite.set_capture_volume_all micElem.id 0] ∧
      (switchlessMixer.setCaptureMuteState okDriver 2 true).state.capture.map recordedVolume =
        [some 3, none] ∧
      ((switchlessMixer.setCaptureMuteState okDriver 2 true).state.setCaptureMuteState
        okDriver 2 false).writes = [HwWrite.set_capture_volume_all micElem.id 3]) := by
  decide

/-- A loop whose body only appends to the writes only appends to the writes. -/
theorem columnLoop_writes_extend (device : Nat)
    (body : alsa_properties_t → List HwWrite → Option alsa_properties_t × List HwWrite)
    (hbody : ∀ q tr, ∃ ws, (body q tr).2 = tr ++ ws) :
    ∀ (tbl : List alsa_properties_t) (tr : List HwWrite),
      ∃ ws, (columnLoop device body tbl tr).writes = tr ++ ws := by
  intro tbl
  induction tbl with
  | nil => intro tr; exact ⟨[], by simp [columnLoop]⟩
  | cons q qs ih =>
    intro tr
    by_cases h0 : q.device = 0
    · exact ⟨[], by simp [columnLoop, h0]⟩
    · by_cases hm : q.device &&& device = 0
      · obtain ⟨ws, hws⟩ := ih tr
        exact ⟨ws, by simp [columnLoop, h0, hm, hws]⟩
      · obtain ⟨w1, hw1⟩ := hbody q tr
        rcases hb : body q tr with ⟨r, tr1⟩
        rw [hb] at hw1
        simp only at hw1
        subst hw1
        cases r with
        | none => exact ⟨w1, by simp [columnLoop, h0, hm, hb]⟩
        | some q1 =>
          obtain ⟨ws, hws⟩ := ih (tr ++ w1)
          exact ⟨w1 ++ ws, by simp [columnLoop, h0, hm, hb, hws]⟩

theorem captureMuteBody_extends (drv : Driver) (st : Bool) (q : alsa_properties_t)
    (tr : List HwWrite) : ∃ ws, (captureMuteBody drv st q tr).2 = tr ++ ws := by
  unfold captureMuteBody
  cases hi : q.mInfo with
  | none => exact ⟨[], by simp⟩
  | some info =>
    cases he : info.elem with
    | none => exact ⟨[], by simp [he]⟩
    | some e =>
      by_cases hs : e.has_capture_switch = true
      · by_cases hd : drv tr (HwWrite.set_capture_switch_all e.id (switchValue st)) < 0
        · exact ⟨[HwWrite.set_capture_switch_all e.id (switchValue st)], by simp [he, hs, hd]⟩
        · exact ⟨[HwWrite.set_capture_switch_all e.id (switchValue st)], by simp [he, hs, hd]⟩
      · by_cases hv : e.has_capture_volume = true
        · exact ⟨(if e.has_capture_volume_joined then
              [HwWrite.set_capture_volume_all e.id (if st then 0 else info.volume)]
            else captureChannelWrites e (if st then 0 else info.volume)),
            by simp [he, hs, hv]⟩
        · exact ⟨[], by simp [he, hs, hv]⟩

/-- The capture direction of C13 in general: when the entries `pre` before a matched bound
capture binding `p` were processed without an early return, and the control of `p` has no
switch but a volume with joined channels, `setCaptureMuteState` makes for `p`, right after
the writes for `pre`, the single write `snd_mixer_selem_set_capture_volume_all` with 0 on
mute and with the recorded volume on unmute; it records the mute flag in `p`, and no
recorded volume of the column changes. -/
theorem capture_mute_volume_fallback (drv : Driver) (m : ALSAMixer) (device : Nat) (st : Bool)
    (pre post : List alsa_properties_t) (p : alsa_properties_t) (info : mixer_info_t)
    (e : snd_mixer_elem_t)
    (htbl : m.capture = pre ++ p :: post) (hpre : ∀ q, q ∈ pre → q.device ≠ 0)
    (hst : (captureMuteLoop drv device st pre []).status = NO_ERROR)
    (hm : Matched device p) (hi : p.mInfo = some info) (he : info.elem = some e)
    (hsw : e.has_capture_switch = false) (hv : e.has_capture_volume = true)
    (hj : e.has_capture_volume_joined = true) :
    (m.setCaptureMuteState drv device st).state.capture[pre.length]? =
        some (withMute p info st) ∧
      (∃ ws, (m.setCaptureMuteState drv device st).writes =
        (captureMuteLoop drv device st pre []).writes ++
          HwWrite.set_capture_volume_all e.id (if st then 0 else info.volume) :: ws) ∧
      (m.setCaptureMuteState drv device st).state.capture.map recordedVolume =
        m.capture.map recordedVolume := by
  have hvol : ∀ (tbl : List alsa_properties_t) (tr : List HwWrite),
      (columnLoop device (captureMuteBody drv st) tbl tr).state.map recordedVolume =
        tbl.map recordedVolume :=
    columnLoop_recordedVolume device _ (fun q tr q1 tr1 h => by
      obtain ⟨i2, e2, hi2, he2, hq1⟩ := captureMuteBody_some drv st q q1 tr tr1 h
      subst hq1
      exact (withMute_facts q i2 e2 st hi2 he2).2.2)
  rw [captureMuteLoop_eq_columnLoop] at hst ⊢
  have hlen : (columnLoop device (captureMuteBody drv st) pre []).state.length = pre.length := by
    have := congrArg List.length (hvol pre [])
    simpa using this
  have h0 := matched_device_ne_zero device p hm
  have hm2 : ¬ (p.device &&& device = 0) := hm
  have hb : captureMuteBody drv st p (columnLoop device (captureMuteBody drv st) pre []).writes =
      (some (withMute p info st),
        (columnLoop device (captureMuteBody drv st) pre []).writes ++
          [HwWrite.set_capture_volume_all e.id (if st then 0 else info.volume)]) := by
    simp [captureMuteBody, hi, he, hsw, hv, hj]
  obtain ⟨ws, hws⟩ := columnLoop_writes_extend device (captureMuteBody drv st)
    (captureMuteBody_extends drv st) post
    ((columnLoop device (captureMuteBody drv st) pre []).writes ++
      [HwWrite.set_capture_volume_all e.id (if st then 0 else info.volume)])
  have hop : m.setCaptureMuteState drv device st =
      ⟨(columnLoop device (captureMuteBody drv st) (pre ++ p :: post) []).status,
        { m with capture :=
            (columnLoop device (captureMuteBody drv st) (pre ++ p :: post) []).state },
        (columnLoop device (captureMuteBody drv st) (pre ++ p :: post) []).writes⟩ := by
    simp only [ALSAMixer.setCaptureMuteState, captureMuteLoop_eq_columnLoop, htbl]
  rw [hop]
  refine ⟨?_, ⟨ws, ?_⟩, ?_⟩
  · simp only [columnLoop_append device _ pre (p :: post) [] hpre hst]
    rw [List.getElem?_append_right (by omega), hlen]
    simp [columnLoop, h0, hm2, hb]
  · simp only [columnLoop_append device _ pre (p :: post) [] hpre hst]
    simp [columnLoop, h0, hm2, hb, hws]
  · simp only [htbl]
    exact hvol _ _

end ALSA
